import Mathlib

/-!
# Verification of the @trestleinc/bridge readiness/dependency evaluation core

Shallow embedding of the bridge component's data model and operations:
Cards, Procedures, Deliverables, Evaluations, the readiness evaluator
(`_deliverableEvaluate`), the collection validator (`_procedureSubmit`),
the scheduler (`scheduleTime`), the evaluation lifecycle
(`_evaluationStart` / `_evaluationCancel` / `_evaluationComplete`) and the
context aggregator (`aggregateSubject` in `server/triggers.ts`).

JavaScript runtime values are modelled by the inductive `Value`; a JS
object / `Record<string, unknown>` is an association list where a later
binding for the same key shadows an earlier one (matching object spread
`{...a, ...b}`), read through `vget`.  The Convex document store is
modelled as lists of records, with index queries as list filters/finds
preserving insertion order.  `Date.now()` / `crypto.randomUUID()` are
passed in as explicit parameters.  Thrown `Error`s are modelled with
`Except BridgeError`.
-/

namespace Bridge

/-- A JavaScript runtime value (`undefined` is modelled as the absence of a
binding, i.e. `Option.none` at lookup sites). -/
inductive Value where
  | vNull : Value
  | vStr : String → Value
  | vNum : Int → Value
  | vBool : Bool → Value
  | vArr : List Value → Value
  | vObj : List (String × Value) → Value

/-- A JS object as an association list; later bindings shadow earlier ones. -/
abbrev VarMap := List (String × Value)

/-- Key lookup in a JS object: the last binding for a key wins
(object spread `{...a, ...b}` is modelled as `a ++ b`). -/
def vget (m : VarMap) (k : String) : Option Value :=
  (m.reverse).lookup k

/-- `typeof` of a modelled value (note `typeof null === "object"` in JS). -/
def jsTypeof : Value → String
  | .vNull => "object"
  | .vStr _ => "string"
  | .vNum _ => "number"
  | .vBool _ => "boolean"
  | .vArr _ => "object"
  | .vObj _ => "object"

/-- The check `val === undefined || val === null || val === ''` used by the
evaluator and the validator for absent/empty values. -/
def isBlank : Option Value → Bool
  | none => true
  | some .vNull => true
  | some (.vStr s) => s = ""
  | some _ => false

/-- Card variants (`variantValidator`). -/
inductive Variant where
  | STRING | TEXT | NUMBER | BOOLEAN | DATE | EMAIL
  | URL | PHONE | SSN | ADDRESS | SUBJECT | ARRAY
deriving DecidableEq, Repr

/-- Card security levels (`securityValidator`). -/
inductive Security where
  | PUBLIC | CONFIDENTIAL | RESTRICTED
deriving DecidableEq, Repr

/-- Deliverable status (`deliverableStatusValidator`). -/
inductive DStatus where
  | active | paused
deriving DecidableEq, Repr

/-- Evaluation status. -/
inductive EStatus where
  | pending | running | completed | failed
deriving DecidableEq, Repr

/-- A Card row (`cards` table). -/
structure Card where
  id : String
  organizationId : String
  slug : String
  label : String
  variant : Variant
  security : Security
  subject : String
  createdBy : String
  createdAt : Nat
deriving DecidableEq, Repr

/-- A card reference inside a Procedure (`procedureCardValidator`):
`{cardId, required, writeTo: {path}}`. -/
structure ProcCardRef where
  cardId : String
  required : Bool
  writeToPath : String
deriving DecidableEq, Repr

/-- A Procedure row (`procedures` table); fields not read by
`_procedureSubmit` (description, subject) are kept as plain data. -/
structure Procedure where
  id : String
  organizationId : String
  name : String
  source : String
  cards : List ProcCardRef
  createdAt : Nat
  updatedAt : Nat
deriving DecidableEq, Repr

/-- A Deliverable's `required` block: `{cardIds, deliverableIds}`. -/
structure Required where
  cardIds : List String
  deliverableIds : List String
deriving DecidableEq, Repr

/-- A Deliverable's optional `schedule` block (`scheduleValidator`):
`{at?, cron?}`; only `at` is read by the evaluator. -/
structure Schedule where
  «at» : Option Nat
  cron : Option String
deriving DecidableEq, Repr

/-- A Deliverable row (`deliverables` table). -/
structure Deliverable where
  id : String
  organizationId : String
  name : String
  subject : String
  required : Required
  schedule : Option Schedule
  status : DStatus
  createdAt : Nat
  updatedAt : Nat
deriving DecidableEq, Repr

/-- The `context` block stored on an Evaluation. -/
structure EvalContext where
  subject : String
  subjectId : String
  mutated : Option (List String)
deriving DecidableEq, Repr

/-- A lifecycle result (`resultValidator`): `{success, duration?, error?}`. -/
structure EvalResult where
  success : Bool
  duration : Option Nat
  error : Option String
deriving DecidableEq, Repr

/-- An Evaluation row (`evaluations` table).  `started` is the optional
start timestamp patched in by the `_evaluationStart` variant at
part_000:1365-1380; the variant at part_000:676-691 never writes it. -/
structure Evaluation where
  id : String
  deliverableId : String
  organizationId : String
  context : EvalContext
  «variables» : VarMap
  status : EStatus
  scheduledFor : Option Nat
  result : Option EvalResult
  completedAt : Option Nat
  started : Option Nat
  createdAt : Nat

/-- The component's document store: one list per table, in insertion
order (Convex `insert` appends; index reads preserve order here). -/
structure Store where
  cards : List Card
  procedures : List Procedure
  deliverables : List Deliverable
  evaluations : List Evaluation

/-- Thrown `Error`s, classified per the spec's taxonomy; the carried
string is the interpolation argument of the source message. -/
inductive BridgeError where
  | notFound : String → BridgeError
  | conflict : String → BridgeError
  | invalidState : String → BridgeError
deriving DecidableEq, Repr

/-! ## Field Registry: `_cardCreate` (part_000:119-156) -/

/-- Arguments of `_cardCreate`. -/
structure CardArgs where
  organizationId : String
  slug : String
  label : String
  variant : Variant
  security : Security
  subject : String
  createdBy : String
deriving DecidableEq, Repr

/-- The `by_slug` index lookup with `.first()`:
first card matching `(organizationId, slug)`. -/
def cardFind (cards : List Card) (organizationId slug : String) : Option Card :=
  cards.find? (fun c => c.organizationId == organizationId && c.slug == slug)

/-- `_cardCreate` (part_000:119-156): idempotent per `(organizationId, slug)`;
`newId` stands for `crypto.randomUUID()` and `now` for `Date.now()`. -/
def cardCreate (store : Store) (args : CardArgs) (newId : String) (now : Nat) :
    Except BridgeError (Card × Store) :=
  match cardFind store.cards args.organizationId args.slug with
  | some existing =>
    if existing.variant ≠ args.variant then
      .error (.conflict args.slug)
    else
      .ok (existing, store)
  | none =>
    let card : Card :=
      { id := newId, organizationId := args.organizationId, slug := args.slug,
        label := args.label, variant := args.variant, security := args.security,
        subject := args.subject, createdBy := args.createdBy, createdAt := now }
    .ok (card, { store with cards := store.cards ++ [card] })

/-! ## Evaluation lifecycle (part_000:676-732 and 1365-1428) -/

/-- The `by_uuid` index lookup with `.unique()` (ids are a unique index;
modelled as first match). -/
def evaluationFind (evals : List Evaluation) (id : String) : Option Evaluation :=
  evals.find? (fun e => e.id == id)

/-- `ctx.db.patch` on the document found by `by_uuid`: update the first
row with the given id. -/
def patchEval (evals : List Evaluation) (id : String) (f : Evaluation → Evaluation) :
    List Evaluation :=
  match evals with
  | [] => []
  | e :: rest => if e.id == id then f e :: rest else e :: patchEval rest id f

/-- `_evaluationStart` (part_000:676-691): requires status `pending`,
patches only `{status: 'running'}` — no timestamp is written. -/
def evaluationStart (store : Store) (id : String) : Except BridgeError Store :=
  match evaluationFind store.evaluations id with
  | none => .error (.notFound id)
  | some e =>
    if e.status ≠ .pending then .error (.invalidState id)
    else .ok { store with
      evaluations := patchEval store.evaluations id (fun e => { e with status := .running }) }

/-- `_evaluationStart` (part_000:1365-1380): same guard, but patches
`{status: 'running', started: Date.now()}`. -/
def evaluationStartV2 (store : Store) (id : String) (now : Nat) : Except BridgeError Store :=
  match evaluationFind store.evaluations id with
  | none => .error (.notFound id)
  | some e =>
    if e.status ≠ .pending then .error (.invalidState id)
    else .ok { store with
      evaluations := patchEval store.evaluations id
        (fun e => { e with status := .running, started := some now }) }

/-- `_evaluationCancel` (part_000:693-712): patches only when the
evaluation exists and is `pending`; always returns `{cancelled: true}`. -/
def evaluationCancel (store : Store) (id : String) (now : Nat) : Store × Bool :=
  let cancelledResult : EvalResult :=
    { success := false, duration := none, error := some "Cancelled" }
  match evaluationFind store.evaluations id with
  | some e =>
    if e.status = .pending then
      ({ store with evaluations := (patchEval store.evaluations id
          (fun e => { e with status := .failed, result := some cancelledResult,
                             completedAt := some now })) }, true)
    else (store, true)
  | none => (store, true)

/-- `_evaluationComplete` (part_000:714-732): requires existence, then
patches status/result/completedAt unconditionally. -/
def evaluationComplete (store : Store) (id : String) (result : EvalResult) (now : Nat) :
    Except BridgeError Store :=
  match evaluationFind store.evaluations id with
  | none => .error (.notFound id)
  | some _ =>
    .ok { store with
      evaluations := patchEval store.evaluations id
        (fun e => { e with
          status := if result.success then .completed else .failed,
          result := some result,
          completedAt := some now }) }

/-! ## Readiness Evaluator: `_deliverableEvaluate` (part_000:540-637) -/

/-- One entry of the result list of `_deliverableEvaluate`. -/
structure EvalOutcome where
  deliverableId : String
  ready : Bool
  unmetCardIds : List String
  unmetDeliverableIds : List String
  evaluationId : Option String
deriving DecidableEq, Repr

/-- The prerequisite check of part_000:586-601: does a completed
Evaluation for `deliverableId` and this `subjectId` exist
(`by_deliverable` index, filtered, `.first()` non-null)? -/
def completedExists (evals : List Evaluation) (deliverableId subjectId : String) : Bool :=
  evals.any (fun e => e.deliverableId == deliverableId
    && e.context.subjectId == subjectId && e.status == EStatus.completed)

/-- The Evaluation document inserted at part_000:607-620 for a ready
deliverable. -/
def mkEvaluation (evalId : String) (d : Deliverable) (organizationId subject subjectId : String)
    (mutated : Option (List String)) (vars : VarMap) (now : Nat) : Evaluation :=
  { id := evalId, deliverableId := d.id, organizationId := organizationId,
    context := { subject := subject, subjectId := subjectId, mutated := mutated },
    «variables» := vars, status := .pending,
    scheduledFor := d.schedule.bind (·.«at»), result := none,
    completedAt := none, started := none, createdAt := now }

/-- The relevance filter `if (args.mutated?.length) { ... }`
(part_000:572-575): with a non-empty `mutated` list, a deliverable none of
whose required cards was mutated is skipped. -/
def skipCheck (mutated : Option (List String)) (d : Deliverable) : Bool :=
  match mutated with
  | some l => !l.isEmpty && !(d.required.cardIds.any (fun c => l.contains c))
  | none => false

/-- The loop body of `_deliverableEvaluate` over the active deliverables
(part_000:571-635), threading the evaluations table (insertions within the
call are visible to later reads, as in a Convex mutation) and a counter
`k` indexing the fresh UUIDs `freshId`. -/
def evaluateLoop (organizationId subject subjectId : String) (vars : VarMap)
    (mutated : Option (List String)) (freshId : Nat → String) (now : Nat) :
    List Deliverable → List Evaluation → Nat → List EvalOutcome × List Evaluation
  | [], evals, _ => ([], evals)
  | d :: rest, evals, k =>
    if skipCheck mutated d then
      evaluateLoop organizationId subject subjectId vars mutated freshId now rest evals k
    else
      let unmetCardIds := d.required.cardIds.filter (fun slug => isBlank (vget vars slug))
      let unmetDeliverableIds := d.required.deliverableIds.filter
        (fun depId => !completedExists evals depId subjectId)
      if unmetCardIds.isEmpty && unmetDeliverableIds.isEmpty then
        let e := mkEvaluation (freshId k) d organizationId subject subjectId mutated vars now
        let r := evaluateLoop organizationId subject subjectId vars mutated freshId now
          rest (evals ++ [e]) (k + 1)
        ({ deliverableId := d.id, ready := true, unmetCardIds := [],
           unmetDeliverableIds := [], evaluationId := some e.id } :: r.1, r.2)
      else
        let r := evaluateLoop organizationId subject subjectId vars mutated freshId now
          rest evals k
        ({ deliverableId := d.id, ready := false, unmetCardIds := unmetCardIds,
           unmetDeliverableIds := unmetDeliverableIds, evaluationId := none } :: r.1, r.2)

/-- The `by_subject` index query with the `status == 'active'` filter
(part_000:561-567). -/
def activeDeliverables (store : Store) (organizationId subject : String) : List Deliverable :=
  store.deliverables.filter (fun d => d.organizationId == organizationId
    && d.subject == subject && d.status == DStatus.active)

/-- `_deliverableEvaluate` (part_000:540-637). -/
def deliverableEvaluate (store : Store) (organizationId subject subjectId : String)
    (vars : VarMap) (mutated : Option (List String)) (freshId : Nat → String) (now : Nat) :
    List EvalOutcome × Store :=
  let r := evaluateLoop organizationId subject subjectId vars mutated freshId now
    (activeDeliverables store organizationId subject) store.evaluations 0
  (r.1, { store with evaluations := r.2 })

/-! ## Collection Validator: `_procedureSubmit` (part_000:286-368) -/

/-- A per-field validation error (`fieldErrorValidator`). -/
structure FieldError where
  field : String
  message : String
deriving DecidableEq, Repr

/-- The structured result of `_procedureSubmit`; the source omits the
`errors` key on success, modelled here as the empty list. -/
structure SubmitResult where
  success : Bool
  errors : List FieldError
  validated : List String
deriving DecidableEq, Repr

/-- `by_uuid` lookup with `.unique()` on the cards table. -/
def cardById (cards : List Card) (id : String) : Option Card :=
  cards.find? (fun c => c.id == id)

/-- `by_uuid` lookup with `.unique()` on the procedures table. -/
def procedureById (procs : List Procedure) (id : String) : Option Procedure :=
  procs.find? (fun p => p.id == id)

/-- `validateVariant` (part_000:373-432).  `urlOk` is the oracle for the
host's `new URL(value)` succeeding; every other check is structural. -/
def validateVariant (urlOk : String → Bool) (variant : Variant) (value : Value) :
    Option String :=
  match variant with
  | .STRING | .TEXT =>
    match value with
    | .vStr _ => none
    | v => some ("Expected string, got " ++ jsTypeof v)
  | .NUMBER =>
    match value with
    | .vNum _ => none
    | v => some ("Expected number, got " ++ jsTypeof v)
  | .BOOLEAN =>
    match value with
    | .vBool _ => none
    | v => some ("Expected boolean, got " ++ jsTypeof v)
  | .DATE =>
    match value with
    | .vStr _ => none
    | .vNum _ => none
    | v => some ("Expected date string or timestamp, got " ++ jsTypeof v)
  | .EMAIL =>
    -- `value.includes('@')` over the string's characters
    match value with
    | .vStr s =>
      if s.data.contains '@' then none else some "Expected valid email address"
    | _ => some "Expected valid email address"
  | .URL =>
    match value with
    | .vStr s => if urlOk s then none else some "Invalid URL format"
    | _ => some "Expected URL string"
  | .PHONE =>
    match value with
    | .vStr _ => none
    | _ => some "Expected phone string"
  | .SSN =>
    match value with
    | .vStr _ => none
    | _ => some "Expected SSN string"
  | .ADDRESS =>
    -- `typeof value !== 'object' || value === null`
    match value with
    | .vObj _ => none
    | .vArr _ => none
    | _ => some "Expected address object"
  | .SUBJECT =>
    match value with
    | .vStr _ => none
    | _ => some "Expected subject ID string"
  | .ARRAY =>
    match value with
    | .vArr _ => none
    | v => some ("Expected array, got " ++ jsTypeof v)

/-- The per-reference step of the `for (const ref of proc.cards)` loop
(part_000:320-353): `Sum.inl` a recorded error, `Sum.inr (some slug)` a
validated slug, `Sum.inr none` a skipped optional blank field. -/
def submitStep (cards : List Card) (urlOk : String → Bool) (values : VarMap)
    (ref : ProcCardRef) : Sum FieldError (Option String) :=
  match cardById cards ref.cardId with
  | none => .inl { field := ref.cardId, message := "Card not found: " ++ ref.cardId }
  | some card =>
    let value := vget values card.slug
    if ref.required && isBlank value then
      .inl { field := card.slug, message := "Required field is missing" }
    else if isBlank value then
      .inr none
    else
      match value with
      | some v =>
        match validateVariant urlOk card.variant v with
        | some msg => .inl { field := card.slug, message := msg }
        | none => .inr (some card.slug)
      | none => .inr none

/-- The accumulating loop of part_000:317-353 over the procedure's card
references (`errors.push` / `validated.push` append in order). -/
def submitLoop (cards : List Card) (urlOk : String → Bool) (values : VarMap) :
    List ProcCardRef → List FieldError × List String
  | [] => ([], [])
  | ref :: rest =>
    let r := submitLoop cards urlOk values rest
    match submitStep cards urlOk values ref with
    | .inl err => (err :: r.1, r.2)
    | .inr (some slug) => (r.1, slug :: r.2)
    | .inr none => r

/-- `_procedureSubmit` (part_000:286-368): validation failures are
returned as data, never thrown. -/
def procedureSubmit (store : Store) (urlOk : String → Bool)
    (procedureId : String) (values : VarMap) : SubmitResult :=
  match procedureById store.procedures procedureId with
  | none =>
    { success := false,
      errors := [{ field := "procedureId",
                   message := "Procedure not found: " ++ procedureId }],
      validated := [] }
  | some proc =>
    let r := submitLoop store.cards urlOk values proc.cards
    if !r.1.isEmpty then { success := false, errors := r.1, validated := r.2 }
    else { success := true, errors := [], validated := r.2 }

/-! ## Scheduler: `scheduleTime` (part_000:1900-1912)

Timestamps are modelled in minutes (the source's `setHours(h, m, 0, 0)`
zeroes seconds and milliseconds, so the comparison `scheduled <= now` is
decided at minute granularity); `setDate(getDate() + 1)` is one civil day
of 1440 minutes, and `getDay()` is the weekday with Sunday = 0 (the epoch
day, 1970-01-01, was a Thursday = 4).  Host timezone offsets and DST are
outside the model. -/

/-- The time condition `{time?: {after}, dayOfWeek?}` read by `scheduleTime`. -/
structure SchedConditions where
  timeAfter : Option String
  dayOfWeek : Option (List Nat)
deriving DecidableEq, Repr

/-- `split(':')` over the characters of the string. -/
def splitColon (cs : List Char) (acc : List Char) : List (List Char) :=
  match cs with
  | [] => [acc.reverse]
  | c :: rest =>
    if c = ':' then acc.reverse :: splitColon rest []
    else splitColon rest (c :: acc)

/-- `Number(s)` on a decimal digit field of a well-formed `"HH:MM"`. -/
def digitsVal (cs : List Char) : Nat :=
  cs.foldl (fun acc c => acc * 10 + (c.toNat - 48)) 0

/-- JS `getDay()` on a timestamp in minutes. -/
def dowOf (t : Nat) : Nat := (t / 1440 + 4) % 7

/-- Midnight of the day containing `t`. -/
def startOfDay (t : Nat) : Nat := t / 1440 * 1440

/-- The `while (!dayOfWeek.includes(scheduled.getDay()))` loop, fuelled:
seven consecutive days cover every weekday, so fuel 7 reproduces the
source loop whenever it terminates (a `dayOfWeek` set containing no real
weekday would make the source spin forever). -/
def advanceDow (dows : List Nat) : Nat → Nat → Nat
  | 0, t => t
  | fuel + 1, t => if dows.contains (dowOf t) then t else advanceDow dows fuel (t + 1440)

/-- `scheduleTime` (part_000:1900-1912); `now` is `Date.now()` in minutes.
`if (!conditions?.time?.after)` treats a missing block and the empty
string alike. -/
def scheduleTime (conditions : Option SchedConditions) (now : Nat) : Nat :=
  match conditions with
  | none => now
  | some c =>
    match c.timeAfter with
    | none => now
    | some after =>
      if after = "" then now
      else
        let parts := splitColon after.data []
        let h := digitsVal (parts.getD 0 [])
        let m := digitsVal (parts.getD 1 [])
        let scheduled := startOfDay now + h * 60 + m
        let scheduled := if scheduled ≤ now then scheduled + 1440 else scheduled
        match c.dayOfWeek with
        | none => scheduled
        | some dows =>
          if dows.isEmpty then scheduled else advanceDow dows 7 scheduled

/-! ## Context Aggregator: `aggregateSubject` (server/triggers.ts:378-428)

The host tables are Convex tables outside the component; a subject
document exposes `id`, an `attributes` array of `{slug, value}` pairs and
further scalar fields (among them the parent-id fields named by the
configured parent edges).  The recursion depth of `aggregateSubject` is
modelled with a fuel parameter; `liveCount` bounds the depth the source
can actually reach, and fuel-irrelevance above that bound is proved for
the termination claim. -/

/-- A parent edge `{field, subject}` (`ParentRelation` in shared/types.ts). -/
structure ParentRelation where
  field : String
  subject : String
deriving DecidableEq, Repr

/-- A subject binding (`SubjectConfig` in shared/types.ts): host table name
and optional parent edges.  The `string` shorthand form of the options map
(table name only) is a config with `parents := none` (`getParents`). -/
structure SubjectConfig where
  table : String
  parents : Option (List ParentRelation)
deriving DecidableEq, Repr

/-- The `subjects` option map of `bridge(...)`: subject kind → config. -/
abbrev SubjectsConfig := List (String × SubjectConfig)

/-- A host subject document: `{id, attributes?: [{slug, value}], ...}`.
`fields` carries the remaining scalar string fields read as parent ids
(`doc[parent.field] as string | undefined`). -/
structure SubjectDoc where
  id : String
  attributes : List (String × Value)
  fields : List (String × String)

/-- The host database: table name → rows. -/
structure HostStore where
  tables : List (String × List SubjectDoc)

/-- `getParents` (server/triggers.ts:319-322): `[]` for a missing or
string-form config. -/
def getParents (cfg : SubjectsConfig) (subject : String) : List ParentRelation :=
  ((cfg.lookup subject).bind (·.parents)).getD []

/-- `fetchSubjectDoc` (server/triggers.ts:342-357): resolve the table via
the config, then `by_uuid` lookup by `id`; `null` when unbound or absent. -/
def fetchSubjectDoc (cfg : SubjectsConfig) (host : HostStore)
    (subject subjectId : String) : Option SubjectDoc :=
  match cfg.lookup subject with
  | none => none
  | some sc =>
    match host.tables.lookup sc.table with
    | none => none
    | some docs => docs.find? (fun d => d.id == subjectId)

/-- `extractVariables` (server/triggers.ts:359-376): the attribute list as
a flat map (a later attribute with the same slug shadows an earlier one,
as with repeated JS object assignment). -/
def extractVariables (doc : SubjectDoc) : VarMap :=
  doc.attributes

/-- The visited-set key `subject + ":" + subjectId`. -/
def keyOf (subject subjectId : String) : String :=
  subject ++ ":" ++ subjectId

/-- The result `{variables, subjects}` of `aggregateSubject`; `subjects`
maps subject kind to the raw document, later assignments shadowing
earlier ones (`Object.assign`). -/
structure AggResult where
  «variables» : VarMap
  subjects : List (String × SubjectDoc)

/-- The empty aggregation result `{variables: {}, subjects: {}}`. -/
def AggResult.empty : AggResult := { «variables» := [], subjects := [] }

/-- The `for (const parent of parents)` loop (server/triggers.ts:408-420):
reads the parent id from the document (skipping a missing field and the
falsy empty string), aggregates the parent through `next` — the recursive
`aggregateSubject` call one level deeper — and merges, later parents
shadowing earlier ones in the variables and `Object.assign` order in the
subjects map. -/
def aggParents (next : String → String → List String → AggResult × List String) :
    List ParentRelation → SubjectDoc → VarMap → List (String × SubjectDoc) →
    List String → AggResult × List String
  | [], _, merged, subjAcc, visited => (⟨merged, subjAcc⟩, visited)
  | parent :: rest, doc, merged, subjAcc, visited =>
    match doc.fields.lookup parent.field with
    | none => aggParents next rest doc merged subjAcc visited
    | some parentId =>
      if parentId = "" then aggParents next rest doc merged subjAcc visited
      else
        let r := next parent.subject parentId visited
        aggParents next rest doc (merged ++ r.1.«variables»)
          (subjAcc ++ r.1.subjects) r.2

/-- `aggregateSubject` (server/triggers.ts:378-428) with explicit fuel for
the recursion depth.  The single mutable `visited` set of the source is
threaded through and returned: recursive calls for one parent are visible
to the traversal of later parents, exactly as in the source. -/
def aggregateF (cfg : SubjectsConfig) (host : HostStore) :
    Nat → String → String → List String → AggResult × List String
  | 0, _, _, visited => (AggResult.empty, visited)
  | fuel + 1, subject, subjectId, visited =>
    let key := keyOf subject subjectId
    if visited.contains key then (AggResult.empty, visited)
    else
      let visited := key :: visited
      match fetchSubjectDoc cfg host subject subjectId with
      | none => (AggResult.empty, visited)
      | some doc =>
        let r := aggParents (aggregateF cfg host fuel) (getParents cfg subject)
          doc [] [(subject, doc)] visited
        ({ «variables» := r.1.«variables» ++ extractVariables doc,
           subjects := r.1.subjects }, r.2)

/-- The number of host documents whose visited-set key is still unvisited,
summed over the configured subject kinds: an upper bound on the number of
successful expansions `aggregateSubject` can still perform. -/
def liveCount (cfg : SubjectsConfig) (host : HostStore) (visited : List String) : Nat :=
  (cfg.map (fun p =>
    (((host.tables.lookup p.2.table).getD []).filter
      (fun d => !visited.contains (keyOf p.1 d.id))).length)).sum

/-- `aggregateSubject(ctx, subject, subjectId)` as called with the default
`visited = new Set()`: enough fuel for every reachable expansion. -/
def aggregateSubject (cfg : SubjectsConfig) (host : HostStore)
    (subject subjectId : String) : AggResult :=
  (aggregateF cfg host (liveCount cfg host [] + 1) subject subjectId []).1

/-! ## Helper lemmas -/

/-- `patchEval` commutes with `evaluationFind` when the patch keeps the id. -/
theorem evaluationFind_patchEval (l : List Evaluation) (id : String)
    (f : Evaluation → Evaluation) (hf : ∀ e, (f e).id = e.id) :
    evaluationFind (patchEval l id f) id = (evaluationFind l id).map f := by
  induction l with
  | nil => rfl
  | cons e rest ih =>
    by_cases h : (e.id == id) = true
    · simp [patchEval, evaluationFind, List.find?, h, hf]
    · simp only [patchEval, evaluationFind, List.find?] at *
      rw [if_neg h]
      simp only [List.find?, h, hf]
      exact ih

/-! ## C6, C8, C9, C10: concrete fixtures -/

/-- A completed Evaluation, fixture for the lifecycle counterexamples. -/
def evalCompleted : Evaluation :=
  { id := "e1", deliverableId := "d1", organizationId := "o1",
    context := { subject := "beneficiary", subjectId := "b1", mutated := none },
    «variables» := [], status := .completed, scheduledFor := none,
    result := some { success := true, duration := none, error := none },
    completedAt := some 10, started := none, createdAt := 1 }

/-- A pending Evaluation with no start timestamp, fixture for C10. -/
def evalPending : Evaluation :=
  { id := "e2", deliverableId := "d1", organizationId := "o1",
    context := { subject := "beneficiary", subjectId := "b1", mutated := none },
    «variables» := [], status := .pending, scheduledFor := none,
    result := none, completedAt := none, started := none, createdAt := 1 }

/-- A store holding the two lifecycle fixtures. -/
def lifecycleStore : Store :=
  { cards := [], procedures := [], deliverables := [],
    evaluations := [evalCompleted, evalPending] }

/-- C8: for every stored Evaluation, `start` on a non-`pending` status
(`completed` in particular) raises InvalidState; `cancel` on a `running`
Evaluation is a no-op returning the store unchanged; `complete` on an
existing Evaluation always stores the supplied result and `completedAt`,
with status `completed` iff `result.success` and `failed` otherwise. -/
theorem evaluation_lifecycle_guards (store : Store) (id : String)
    (r : EvalResult) (now : Nat) :
    (∀ e, evaluationFind store.evaluations id = some e → e.status ≠ .pending →
      evaluationStart store id = .error (.invalidState id)) ∧
    (∀ e, evaluationFind store.evaluations id = some e → e.status = .running →
      evaluationCancel store id now = (store, true)) ∧
    (∀ e, evaluationFind store.evaluations id = some e →
      ∃ s', evaluationComplete store id r now = .ok s' ∧
        evaluationFind s'.evaluations id = some
          { e with status := if r.success then .completed else .failed,
                   result := some r, completedAt := some now }) := by
  refine ⟨fun e he hne => ?_, fun e he hr => ?_, fun e he => ?_⟩
  · simp [evaluationStart, he, hne]
  · simp [evaluationCancel, he, hr]
  · have hok : evaluationComplete store id r now = Except.ok
        { store with evaluations := (patchEval store.evaluations id
          (fun e => { e with status := if r.success then EStatus.completed else EStatus.failed,
                             result := some r, completedAt := some now })) } := by
      unfold evaluationComplete
      rw [he]
    refine ⟨_, hok, ?_⟩
    have := evaluationFind_patchEval store.evaluations id
      (fun e => { e with status := if r.success then .completed else .failed,
                         result := some r, completedAt := some now })
      (fun _ => rfl)
    rw [this, he]
    rfl

/-- Witness for C8 at the concrete lifecycle store. -/
theorem evaluation_lifecycle_guards_witness :
    evaluationStart lifecycleStore "e1" = .error (.invalidState "e1") ∧
    (∃ s', evaluationComplete lifecycleStore "e1"
        { success := true, duration := none, error := none } 99 = .ok s' ∧
      (evaluationFind s'.evaluations "e1").map (·.completedAt) = some (some 99)) := by
  have h := evaluation_lifecycle_guards lifecycleStore "e1"
    { success := true, duration := none, error := none } 99
  refine ⟨h.1 evalCompleted rfl (by simp [evalCompleted]), ?_⟩
  obtain ⟨s', hs, hfind⟩ := h.2.2 evalCompleted rfl
  exact ⟨s', hs, by rw [hfind]; rfl⟩

/-- C9 counterexample: a `completed` Evaluation does change again — a
second `complete` with `success := false` silently rewrites it to
`failed`, with no InvalidState. -/
theorem evaluation_terminal_mutable_cex :
    (evaluationFind lifecycleStore.evaluations "e1").map (·.status) =
      some .completed ∧
    ∃ s', evaluationComplete lifecycleStore "e1"
        { success := false, duration := none, error := none } 99 = .ok s' ∧
      (evaluationFind s'.evaluations "e1").map (·.status) = some .failed := by
  exact ⟨rfl, _, rfl, rfl⟩

/-- C9 amended: once an Evaluation is `completed` or `failed` its status
never changes under `start` (InvalidState) or `cancel` (a no-op returning
the store unchanged); the transitions via `start` are pending → running
and via `cancel` pending → failed with the Cancelled result and
`completedAt` set; `complete`, however, checks only existence and
unconditionally rewrites status, result and `completedAt` from any
current state — status `completed` iff the supplied `result.success`,
else `failed`. -/
theorem evaluation_transitions_amended (store : Store) (id : String)
    (r : EvalResult) (now : Nat) :
    (∀ e, evaluationFind store.evaluations id = some e →
      (e.status = .completed ∨ e.status = .failed) →
      evaluationStart store id = .error (.invalidState id) ∧
      evaluationCancel store id now = (store, true)) ∧
    (∀ e, evaluationFind store.evaluations id = some e → e.status = .pending →
      ∃ s', evaluationStart store id = .ok s' ∧
        evaluationFind s'.evaluations id = some { e with status := .running }) ∧
    (∀ e, evaluationFind store.evaluations id = some e → e.status = .pending →
      ∃ s', evaluationCancel store id now = (s', true) ∧
        evaluationFind s'.evaluations id = some
          { e with status := .failed,
                   result := some { success := false, duration := none,
                                    error := some "Cancelled" },
                   completedAt := some now }) ∧
    (∀ e, evaluationFind store.evaluations id = some e →
      ∃ s', evaluationComplete store id r now = .ok s' ∧
        evaluationFind s'.evaluations id = some
          { e with status := if r.success then .completed else .failed,
                   result := some r, completedAt := some now }) := by
  refine ⟨?_, ?_, ?_, ?_⟩
  · intro e he hterm
    have hne : e.status ≠ .pending := by rcases hterm with h | h <;> simp [h]
    constructor
    · simp [evaluationStart, he, hne]
    · simp [evaluationCancel, he, hne]
  · intro e he hp
    have hok : evaluationStart store id = Except.ok
        { store with evaluations := (patchEval store.evaluations id
          (fun e => { e with status := EStatus.running })) } := by
      unfold evaluationStart
      rw [he]
      simp [hp]
    refine ⟨_, hok, ?_⟩
    have := evaluationFind_patchEval store.evaluations id
      (fun e => { e with status := EStatus.running }) (fun _ => rfl)
    rw [this, he]
    rfl
  · intro e he hp
    have hok : evaluationCancel store id now =
        ({ store with evaluations := (patchEval store.evaluations id
          (fun e => { e with status := EStatus.failed,
                             result := some { success := false, duration := none,
                                              error := some "Cancelled" },
                             completedAt := some now })) }, true) := by
      unfold evaluationCancel
      rw [he]
      simp [hp]
    refine ⟨_, hok, ?_⟩
    have := evaluationFind_patchEval store.evaluations id
      (fun e => { e with status := EStatus.failed,
                         result := some { success := false, duration := none,
                                          error := some "Cancelled" },
                         completedAt := some now }) (fun _ => rfl)
    rw [this, he]
    rfl
  · intro e he
    have hok : evaluationComplete store id r now = Except.ok
        { store with evaluations := (patchEval store.evaluations id
          (fun e => { e with status := if r.success then EStatus.completed else EStatus.failed,
                             result := some r, completedAt := some now })) } := by
      unfold evaluationComplete
      rw [he]
    refine ⟨_, hok, ?_⟩
    have := evaluationFind_patchEval store.evaluations id
      (fun e => { e with status := if r.success then .completed else .failed,
                         result := some r, completedAt := some now })
      (fun _ => rfl)
    rw [this, he]
    rfl

/-- Witness for the amended C9 at the concrete lifecycle store: the
completed `e1` is immune to start and cancel, the pending `e2` starts to
running and cancels to failed with the Cancelled result and
`completedAt`, and a second complete overwrites `e1`'s stored result. -/
theorem evaluation_transitions_amended_witness :
    evaluationStart lifecycleStore "e1" = .error (.invalidState "e1") ∧
    evaluationCancel lifecycleStore "e1" 99 = (lifecycleStore, true) ∧
    (∃ s', evaluationStart lifecycleStore "e2" = .ok s' ∧
      (evaluationFind s'.evaluations "e2").map (·.status) = some .running) ∧
    (∃ s', evaluationCancel lifecycleStore "e2" 99 = (s', true) ∧
      (evaluationFind s'.evaluations "e2").map (·.status) = some .failed ∧
      (evaluationFind s'.evaluations "e2").map (·.completedAt)
        = some (some 99) ∧
      (evaluationFind s'.evaluations "e2").map (·.result)
        = some (some { success := false, duration := none,
                       error := some "Cancelled" })) ∧
    (∃ s', evaluationComplete lifecycleStore "e1"
        { success := false, duration := none, error := none } 99 = .ok s' ∧
      (evaluationFind s'.evaluations "e1").map (·.result)
        = some (some { success := false, duration := none, error := none }) ∧
      (evaluationFind s'.evaluations "e1").map (·.completedAt)
        = some (some 99)) := by
  have h1 := evaluation_transitions_amended lifecycleStore "e1"
    { success := false, duration := none, error := none } 99
  have h2 := evaluation_transitions_amended lifecycleStore "e2"
    { success := false, duration := none, error := none } 99
  obtain ⟨hstart, hcancel⟩ := h1.1 evalCompleted rfl (Or.inl rfl)
  obtain ⟨s2, hs2, hf2⟩ := h2.2.1 evalPending rfl rfl
  obtain ⟨s3, hs3, hf3⟩ := h2.2.2.1 evalPending rfl rfl
  obtain ⟨s4, hs4, hf4⟩ := h1.2.2.2 evalCompleted rfl
  refine ⟨hstart, hcancel, ⟨s2, hs2, ?_⟩, ⟨s3, hs3, ?_, ?_, ?_⟩,
    ⟨s4, hs4, ?_, ?_⟩⟩
  · rw [hf2]
    rfl
  · rw [hf3]
    rfl
  · rw [hf3]
    rfl
  · rw [hf3]
    rfl
  · rw [hf4]
    rfl
  · rw [hf4]
    rfl

/-- C10 counterexample: the `_evaluationStart` at part_000:676-691
transitions a pending Evaluation to `running` but records no start
timestamp — `started` is still absent after the call. -/
theorem evaluationStart_no_timestamp_cex :
    (evaluationFind lifecycleStore.evaluations "e2").map (·.status) =
      some .pending ∧
    ∃ s', evaluationStart lifecycleStore "e2" = .ok s' ∧
      (evaluationFind s'.evaluations "e2").map (·.status) = some .running ∧
      (evaluationFind s'.evaluations "e2").map (·.started) = some none := by
  exact ⟨rfl, _, rfl, rfl, rfl⟩

/-- C10 amended: `startEvaluation` on a `pending` Evaluation transitions
it to `running` and fails with InvalidState on any other status; the
variant at part_000:1365-1380 additionally records the start timestamp in
`started`, while the variant at part_000:676-691 writes no timestamp. -/
theorem evaluationStart_spec (store : Store) (id : String) (now : Nat) :
    (∀ e, evaluationFind store.evaluations id = some e → e.status = .pending →
      (∃ s', evaluationStart store id = .ok s' ∧
        evaluationFind s'.evaluations id = some { e with status := .running }) ∧
      (∃ s', evaluationStartV2 store id now = .ok s' ∧
        evaluationFind s'.evaluations id = some
          { e with status := .running, started := some now })) ∧
    (∀ e, evaluationFind store.evaluations id = some e → e.status ≠ .pending →
      evaluationStart store id = .error (.invalidState id) ∧
      evaluationStartV2 store id now = .error (.invalidState id)) := by
  constructor
  · intro e he hp
    constructor
    · have hok : evaluationStart store id = Except.ok
          { store with evaluations := (patchEval store.evaluations id
            (fun e => { e with status := EStatus.running })) } := by
        unfold evaluationStart
        rw [he]
        simp [hp]
      refine ⟨_, hok, ?_⟩
      have := evaluationFind_patchEval store.evaluations id
        (fun e => { e with status := EStatus.running }) (fun _ => rfl)
      simp [this, he]
    · have hok : evaluationStartV2 store id now = Except.ok
          { store with evaluations := (patchEval store.evaluations id
            (fun e => { e with status := EStatus.running, started := some now })) } := by
        unfold evaluationStartV2
        rw [he]
        simp [hp]
      refine ⟨_, hok, ?_⟩
      have := evaluationFind_patchEval store.evaluations id
        (fun e => { e with status := EStatus.running, started := some now })
        (fun _ => rfl)
      simp [this, he]
  · intro e he hne
    exact ⟨by simp [evaluationStart, he, hne], by simp [evaluationStartV2, he, hne]⟩

/-- Witness for the amended C10 at the concrete lifecycle store. -/
theorem evaluationStart_spec_witness :
    (∃ s', evaluationStart lifecycleStore "e2" = .ok s' ∧
      (evaluationFind s'.evaluations "e2").map (·.status) = some .running) ∧
    evaluationStart lifecycleStore "e1" = .error (.invalidState "e1") := by
  have h := evaluationStart_spec lifecycleStore "e2" 99
  have h1 := evaluationStart_spec lifecycleStore "e1" 99
  obtain ⟨⟨s', hs, hfind⟩, _⟩ := h.1 evalPending rfl rfl
  refine ⟨⟨s', hs, by rw [hfind]; rfl⟩, ?_⟩
  exact (h1.2 evalCompleted rfl (by simp [evalCompleted])).1

/-! ## C6: idempotent card creation -/

/-- Concrete arguments for the C6 witness. -/
def emailCardArgs : CardArgs :=
  { organizationId := "O1", slug := "email", label := "Email",
    variant := .EMAIL, security := .PUBLIC, subject := "beneficiary",
    createdBy := "admin" }

/-- The empty store. -/
def emptyStore : Store :=
  { cards := [], procedures := [], deliverables := [], evaluations := [] }

/-- C6: `createCard` is idempotent per `(organizationId, slug)` — when a
matching Card with the same variant exists it is returned with no insert;
a different variant fails with Conflict and inserts nothing; a fresh key
inserts exactly one new Card with the fresh id, after which a second call
with the same `(organizationId, slug, variant)` returns that same Card
and leaves the table unchanged. -/
theorem cardCreate_idempotent (store : Store) (args : CardArgs)
    (id₁ id₂ : String) (now₁ now₂ : Nat) :
    (∀ e, cardFind store.cards args.organizationId args.slug = some e →
      (e.variant = args.variant → cardCreate store args id₁ now₁ = .ok (e, store)) ∧
      (e.variant ≠ args.variant →
        cardCreate store args id₁ now₁ = .error (.conflict args.slug))) ∧
    (cardFind store.cards args.organizationId args.slug = none →
      ∃ c₁ s₁, cardCreate store args id₁ now₁ = .ok (c₁, s₁) ∧
        c₁.id = id₁ ∧ c₁.variant = args.variant ∧
        s₁.cards = store.cards ++ [c₁] ∧
        cardCreate s₁ args id₂ now₂ = .ok (c₁, s₁)) := by
  constructor
  · intro e he
    constructor
    · intro hv
      simp [cardCreate, he, hv]
    · intro hv
      simp [cardCreate, he, hv]
  · intro hnone
    have hok : cardCreate store args id₁ now₁ = Except.ok
        ({ id := id₁, organizationId := args.organizationId, slug := args.slug,
           label := args.label, variant := args.variant, security := args.security,
           subject := args.subject, createdBy := args.createdBy, createdAt := now₁ },
         { store with cards := store.cards ++
           [{ id := id₁, organizationId := args.organizationId, slug := args.slug,
              label := args.label, variant := args.variant, security := args.security,
              subject := args.subject, createdBy := args.createdBy, createdAt := now₁ }] }) := by
      unfold cardCreate
      rw [hnone]
    refine ⟨_, _, hok, rfl, rfl, rfl, ?_⟩
    have hfind : cardFind (store.cards ++
        [{ id := id₁, organizationId := args.organizationId, slug := args.slug,
           label := args.label, variant := args.variant, security := args.security,
           subject := args.subject, createdBy := args.createdBy, createdAt := now₁ }])
        args.organizationId args.slug = some
        { id := id₁, organizationId := args.organizationId, slug := args.slug,
          label := args.label, variant := args.variant, security := args.security,
          subject := args.subject, createdBy := args.createdBy, createdAt := now₁ } := by
      unfold cardFind at hnone ⊢
      rw [List.find?_append, hnone]
      simp
    simp [cardCreate, hfind]

/-- Witness for C6: creating `email` twice in the empty store yields the
same Card both times and a single row. -/
theorem cardCreate_idempotent_witness :
    ∃ c₁ s₁, cardCreate emptyStore emailCardArgs "c-1" 5 = .ok (c₁, s₁) ∧
      c₁.id = "c-1" ∧ c₁.variant = .EMAIL ∧
      s₁.cards = emptyStore.cards ++ [c₁] ∧
      cardCreate s₁ emailCardArgs "c-2" 6 = .ok (c₁, s₁) := by
  have h := cardCreate_idempotent emptyStore emailCardArgs "c-1" "c-2" 5 6
  simpa using h.2 rfl

/-! ## C5: scheduling arithmetic -/

/-- The `while` loop of `scheduleTime` lands on the first day, scanning
one day at a time, whose weekday is in the set. -/
theorem advanceDow_first_hit (dows : List Nat) :
    ∀ fuel t, (∃ k, k < fuel ∧ dows.contains (dowOf (t + 1440 * k))) →
    ∃ k, k < fuel ∧ advanceDow dows fuel t = t + 1440 * k ∧
      dows.contains (dowOf (t + 1440 * k)) ∧
      ∀ j, j < k → ¬ dows.contains (dowOf (t + 1440 * j)) := by
  intro fuel
  induction fuel with
  | zero => rintro t ⟨k, hk, _⟩; omega
  | succ n ih =>
    rintro t ⟨k, hk, hmem⟩
    by_cases h0 : dows.contains (dowOf t)
    · refine ⟨0, Nat.succ_pos n, ?_, by simpa using h0, by omega⟩
      simp only [advanceDow]
      rw [if_pos h0]
      ring
    · have hkpos : k ≠ 0 := by
        rintro rfl
        rw [show t + 1440 * 0 = t by ring] at hmem
        exact h0 hmem
      obtain ⟨k', rfl⟩ := Nat.exists_eq_succ_of_ne_zero hkpos
      have hmem' : dows.contains (dowOf ((t + 1440) + 1440 * k')) := by
        rw [show (t + 1440) + 1440 * k' = t + 1440 * (k' + 1) by ring]
        exact hmem
      obtain ⟨k₀, hk₀, heq, hmem₀, hmin₀⟩ := ih (t + 1440) ⟨k', by omega, hmem'⟩
      refine ⟨k₀ + 1, by omega, ?_, ?_, ?_⟩
      · simp only [advanceDow]
        rw [if_neg h0, heq]
        ring
      · rw [show t + 1440 * (k₀ + 1) = (t + 1440) + 1440 * k₀ by ring]
        exact hmem₀
      · intro j hj
        match j with
        | 0 =>
          rw [show t + 1440 * 0 = t by ring]
          exact h0
        | j' + 1 =>
          rw [show t + 1440 * (j' + 1) = (t + 1440) + 1440 * j' by ring]
          exact hmin₀ j' (by omega)

/-- Seven consecutive days reach every weekday that the set mentions. -/
theorem exists_dow_hit (dows : List Nat) (t : Nat) (h : ∃ d ∈ dows, d < 7) :
    ∃ k, k < 7 ∧ dows.contains (dowOf (t + 1440 * k)) := by
  obtain ⟨d, hd, hd7⟩ := h
  refine ⟨(d + 7 - (t / 1440 + 4) % 7) % 7, by omega, ?_⟩
  have harith : dowOf (t + 1440 * ((d + 7 - (t / 1440 + 4) % 7) % 7)) = d := by
    unfold dowOf
    have hdiv : (t + 1440 * ((d + 7 - (t / 1440 + 4) % 7) % 7)) / 1440
        = t / 1440 + (d + 7 - (t / 1440 + 4) % 7) % 7 := by
      omega
    rw [hdiv]
    omega
  rw [harith]
  exact List.elem_iff.mpr hd

/-- Evaluating `scheduleTime` at `after = "09:00"`: the candidate is today
09:00, pushed to tomorrow when already past, then day-stepped by the
weekday loop. -/
theorem scheduleTime_0900 (now : Nat) (dw : Option (List Nat)) :
    scheduleTime (some { timeAfter := some "09:00", dayOfWeek := dw }) now =
      (match dw with
       | none =>
         if startOfDay now + 540 ≤ now then startOfDay now + 540 + 1440
         else startOfDay now + 540
       | some dows =>
         if dows.isEmpty then
           (if startOfDay now + 540 ≤ now then startOfDay now + 540 + 1440
            else startOfDay now + 540)
         else advanceDow dows 7
           (if startOfDay now + 540 ≤ now then startOfDay now + 540 + 1440
            else startOfDay now + 540)) := by
  have h1 : digitsVal ((splitColon "09:00".data []).getD 0 []) = 9 := by decide
  have h2 : digitsVal ((splitColon "09:00".data []).getD 1 []) = 0 := by decide
  simp only [scheduleTime, if_neg (by decide : ¬ ("09:00" = "")), h1, h2]

/-- C5: no time condition gives `now`; `after = "09:00"` gives today 09:00
when now is earlier the same day and tomorrow 09:00 otherwise; a weekday
set additionally advances the candidate one day at a time to the first
day whose weekday is in the set. -/
theorem scheduleTime_spec (now : Nat) :
    scheduleTime none now = now ∧
    (∀ dw, scheduleTime (some { timeAfter := none, dayOfWeek := dw }) now = now) ∧
    (now % 1440 < 540 →
      scheduleTime (some { timeAfter := some "09:00", dayOfWeek := none }) now
        = startOfDay now + 540) ∧
    (540 ≤ now % 1440 →
      scheduleTime (some { timeAfter := some "09:00", dayOfWeek := none }) now
        = startOfDay now + 540 + 1440) ∧
    (∀ dows, dows ≠ [] → (∃ d ∈ dows, d < 7) →
      ∃ cand k, k < 7 ∧
        (cand = if now % 1440 < 540 then startOfDay now + 540
                else startOfDay now + 540 + 1440) ∧
        scheduleTime (some { timeAfter := some "09:00", dayOfWeek := some dows }) now
          = cand + 1440 * k ∧
        dows.contains (dowOf (cand + 1440 * k)) ∧
        ∀ j, j < k → ¬ dows.contains (dowOf (cand + 1440 * j))) := by
  have hcand : (if startOfDay now + 540 ≤ now then startOfDay now + 540 + 1440
      else startOfDay now + 540)
      = if now % 1440 < 540 then startOfDay now + 540
        else startOfDay now + 540 + 1440 := by
    rcases Nat.lt_or_ge (now % 1440) 540 with h | h
    · have hA : ¬ (startOfDay now + 540 ≤ now) := by unfold startOfDay; omega
      rw [if_neg hA, if_pos h]
    · have hA : startOfDay now + 540 ≤ now := by unfold startOfDay; omega
      rw [if_pos hA, if_neg (by omega)]
  refine ⟨rfl, fun dw => rfl, ?_, ?_, ?_⟩
  · intro h
    rw [scheduleTime_0900, hcand, if_pos h]
  · intro h
    rw [scheduleTime_0900, hcand, if_neg (by omega)]
  · intro dows hne hvalid
    refine ⟨if now % 1440 < 540 then startOfDay now + 540
      else startOfDay now + 540 + 1440, ?_⟩
    have hstep := exists_dow_hit dows
      (if now % 1440 < 540 then startOfDay now + 540 else startOfDay now + 540 + 1440)
      hvalid
    obtain ⟨k, hk7, heq, hmem, hmin⟩ := advanceDow_first_hit dows 7 _ hstep
    refine ⟨k, hk7, rfl, ?_, hmem, hmin⟩
    rw [scheduleTime_0900]
    have hempty : dows.isEmpty = false := by
      cases dows with
      | nil => exact absurd rfl hne
      | cons a l => rfl
    simp only [hempty, if_false, Bool.false_eq_true]
    rw [hcand]
    exact heq

/-- Witness for C5: Thursday 1970-01-01; 08:00 schedules today 09:00,
10:00 schedules tomorrow 09:00, and with `dayOfWeek = [1,3,5]` the
morning run lands on Friday 09:00. -/
theorem scheduleTime_spec_witness :
    scheduleTime none 480 = 480 ∧
    scheduleTime (some { timeAfter := some "09:00", dayOfWeek := none }) 480 = 540 ∧
    scheduleTime (some { timeAfter := some "09:00", dayOfWeek := none }) 600 = 1980 ∧
    (∃ cand k, k < 7 ∧ (cand = if 480 % 1440 < 540 then startOfDay 480 + 540
        else startOfDay 480 + 540 + 1440) ∧
      scheduleTime (some { timeAfter := some "09:00", dayOfWeek := some [1, 3, 5] }) 480
        = cand + 1440 * k ∧
      ([1, 3, 5] : List Nat).contains (dowOf (cand + 1440 * k)) ∧
      ∀ j, j < k → ¬ ([1, 3, 5] : List Nat).contains (dowOf (cand + 1440 * j))) := by
  have h480 := scheduleTime_spec 480
  have h600 := scheduleTime_spec 600
  refine ⟨h480.1, ?_, ?_, ?_⟩
  · have := h480.2.2.1 (by norm_num)
    rw [this]
    rfl
  · have := h600.2.2.2.1 (by norm_num)
    rw [this]
    rfl
  · exact h480.2.2.2.2 [1, 3, 5] (by decide) ⟨1, by decide, by decide⟩

/-! ## C7: submission validation returns structured errors -/

/-- The error a card reference contributes, if any. -/
def submitFieldError (cards : List Card) (urlOk : String → Bool) (values : VarMap)
    (ref : ProcCardRef) : Option FieldError :=
  match submitStep cards urlOk values ref with
  | .inl e => some e
  | .inr _ => none

/-- The validated slug a card reference contributes, if any. -/
def submitValidatedSlug (cards : List Card) (urlOk : String → Bool) (values : VarMap)
    (ref : ProcCardRef) : Option String :=
  match submitStep cards urlOk values ref with
  | .inr (some s) => some s
  | _ => none

/-- The accumulating loop gathers every reference's contribution in
order: no error short-circuits the scan. -/
theorem submitLoop_eq_filterMap (cards : List Card) (urlOk : String → Bool)
    (values : VarMap) (refs : List ProcCardRef) :
    submitLoop cards urlOk values refs =
      (refs.filterMap (submitFieldError cards urlOk values),
       refs.filterMap (submitValidatedSlug cards urlOk values)) := by
  induction refs with
  | nil => rfl
  | cons ref rest ih =>
    simp only [submitLoop, ih, List.filterMap_cons, submitFieldError, submitValidatedSlug]
    cases submitStep cards urlOk values ref with
    | inl e => rfl
    | inr v => cases v with
      | none => rfl
      | some s => rfl

/-- A reference contributes a validated slug exactly when its Card
resolves, the submitted value is present (not undefined/null/empty) and
passes the variant check. -/
theorem submitValidatedSlug_eq (cards : List Card) (urlOk : String → Bool)
    (values : VarMap) (ref : ProcCardRef) :
    submitValidatedSlug cards urlOk values ref =
      (cardById cards ref.cardId).bind (fun card =>
        match vget values card.slug with
        | some v =>
          if isBlank (some v) = false ∧ validateVariant urlOk card.variant v = none
          then some card.slug else none
        | none => none) := by
  unfold submitValidatedSlug submitStep
  cases hcb : cardById cards ref.cardId with
  | none => rfl
  | some card =>
    simp only [Option.some_bind]
    cases hv : vget values card.slug with
    | none =>
      cases ref.required <;> simp [isBlank]
    | some v =>
      by_cases hb : isBlank (some v) = true
      · cases hre : ref.required <;> simp [hb]
      · have hb' : isBlank (some v) = false := by
          cases h : isBlank (some v)
          · rfl
          · exact absurd h hb
        cases hvv : validateVariant urlOk card.variant v with
        | none => simp [hb', hvv]
        | some msg => simp [hb', hvv]

/-- C7: `submitProcedure` returns failures as data — an unknown
procedure id yields the single structured `procedureId` error with no
validated slugs; `success` holds exactly when the error list is empty;
all card references are scanned, each contributing its error or its
validated slug independently of the others, and `validated` lists exactly
the slugs whose present values passed their variant check. -/
theorem procedureSubmit_spec (store : Store) (urlOk : String → Bool)
    (procedureId : String) (values : VarMap) :
    (procedureById store.procedures procedureId = none →
      procedureSubmit store urlOk procedureId values =
        { success := false,
          errors := [{ field := "procedureId",
                       message := "Procedure not found: " ++ procedureId }],
          validated := [] }) ∧
    ((procedureSubmit store urlOk procedureId values).success = true ↔
      (procedureSubmit store urlOk procedureId values).errors = []) ∧
    (∀ proc, procedureById store.procedures procedureId = some proc →
      (procedureSubmit store urlOk procedureId values).errors =
        proc.cards.filterMap (submitFieldError store.cards urlOk values) ∧
      (procedureSubmit store urlOk procedureId values).validated =
        proc.cards.filterMap (fun ref =>
          (cardById store.cards ref.cardId).bind (fun card =>
            match vget values card.slug with
            | some v =>
              if isBlank (some v) = false ∧ validateVariant urlOk card.variant v = none
              then some card.slug else none
            | none => none))) := by
  have hval : ∀ proc : Procedure,
      proc.cards.filterMap (submitValidatedSlug store.cards urlOk values) =
      proc.cards.filterMap (fun ref =>
        (cardById store.cards ref.cardId).bind (fun card =>
          match vget values card.slug with
          | some v =>
            if isBlank (some v) = false ∧ validateVariant urlOk card.variant v = none
            then some card.slug else none
          | none => none)) := by
    intro proc
    exact List.filterMap_congr (fun ref _ => submitValidatedSlug_eq store.cards urlOk values ref)
  refine ⟨fun hnone => ?_, ?_, fun proc hsome => ?_⟩
  · unfold procedureSubmit
    rw [hnone]
  · unfold procedureSubmit
    cases hp : procedureById store.procedures procedureId with
    | none => simp
    | some proc =>
      dsimp only
      rw [submitLoop_eq_filterMap]
      by_cases he : proc.cards.filterMap (submitFieldError store.cards urlOk values) = []
      · simp [he]
      · simp [he]
  · unfold procedureSubmit
    rw [hsome]
    dsimp only
    rw [submitLoop_eq_filterMap]
    by_cases he : proc.cards.filterMap (submitFieldError store.cards urlOk values) = []
    · simp [he, hval proc]
    · simp [he, hval proc]

/-- Fixture cards for the C7 witness. -/
def emailCard : Card :=
  { id := "c-em", organizationId := "O1", slug := "email", label := "Email",
    variant := .EMAIL, security := .PUBLIC, subject := "beneficiary",
    createdBy := "admin", createdAt := 1 }

/-- Fixture STRING card for the C7 witness. -/
def nameCard : Card :=
  { id := "c-nm", organizationId := "O1", slug := "name", label := "Name",
    variant := .STRING, security := .PUBLIC, subject := "beneficiary",
    createdBy := "admin", createdAt := 1 }

/-- Fixture procedure referencing a resolvable card with a good value,
a required card with no value, and a dangling card id. -/
def submitProc : Procedure :=
  { id := "p1", organizationId := "O1", name := "Intake", source := "form",
    cards := [{ cardId := "c-em", required := true, writeToPath := "a" },
              { cardId := "c-nm", required := true, writeToPath := "b" },
              { cardId := "c-x", required := false, writeToPath := "c" }],
    createdAt := 1, updatedAt := 1 }

/-- Store for the C7 witness. -/
def submitStore : Store :=
  { cards := [emailCard, nameCard], procedures := [submitProc],
    deliverables := [], evaluations := [] }

/-- Submitted values for the C7 witness. -/
def submitValues : VarMap := [("email", .vStr "a@b.com")]

/-- URL oracle accepting everything (no URL card in the fixture). -/
def urlOkAll : String → Bool := fun _ => true

/-- Witness for C7: both errors are accumulated past the first failure,
`validated` keeps the passing slug, `success` is false, and an unknown
procedure id returns the structured `procedureId` error. -/
theorem procedureSubmit_spec_witness :
    (procedureSubmit submitStore urlOkAll "p1" submitValues).errors =
      [{ field := "name", message := "Required field is missing" },
       { field := "c-x", message := "Card not found: c-x" }] ∧
    (procedureSubmit submitStore urlOkAll "p1" submitValues).validated = ["email"] ∧
    (procedureSubmit submitStore urlOkAll "p1" submitValues).success = false ∧
    procedureSubmit submitStore urlOkAll "missing" submitValues =
      { success := false,
        errors := [{ field := "procedureId",
                     message := "Procedure not found: missing" }],
        validated := [] } := by
  have h := procedureSubmit_spec submitStore urlOkAll "p1" submitValues
  have hm := procedureSubmit_spec submitStore urlOkAll "missing" submitValues
  obtain ⟨herr, hvalid⟩ := h.2.2 submitProc rfl
  refine ⟨?_, ?_, ?_, hm.1 rfl⟩
  · rw [herr]
    decide
  · rw [hvalid]
    rfl
  · have hiff := h.2.1
    rw [herr] at hiff
    cases hs : (procedureSubmit submitStore urlOkAll "p1" submitValues).success
    · rfl
    · exfalso
      have : (List.filterMap (submitFieldError submitStore.cards urlOkAll submitValues)
          submitProc.cards) = [] := hiff.mp hs
      simp at this
      exact absurd this (by decide)

/-! ## C1, C2: readiness evaluation -/

/-- Evaluations inserted during a call are `pending`, so they never
satisfy the completed-prerequisite check. -/
theorem completedExists_append_pending (l news : List Evaluation)
    (h : ∀ e ∈ news, e.status = .pending) (dep sid : String) :
    completedExists (l ++ news) dep sid = completedExists l dep sid := by
  unfold completedExists
  rw [List.any_append]
  have : news.any (fun e => e.deliverableId == dep
      && e.context.subjectId == sid && e.status == EStatus.completed) = false := by
    rw [List.any_eq_false]
    intro e he
    rw [h e he]
    simp
  rw [this, Bool.or_false]

/-- Shape of the evaluations table after the loop: the original rows
followed by one new pending Evaluation per ready outcome, whose ids are
the emitted `evaluationId`s, carrying the subject context and the
supplied variables. -/
theorem evaluateLoop_insertions (org subj sid : String) (vars : VarMap)
    (mutated : Option (List String)) (freshId : Nat → String) (now : Nat) :
    ∀ ds evals k,
    ∃ news, (evaluateLoop org subj sid vars mutated freshId now ds evals k).2
        = evals ++ news ∧
      (∀ e ∈ news, e.status = .pending
        ∧ e.context = { subject := subj, subjectId := sid, mutated := mutated }
        ∧ e.«variables» = vars ∧ e.organizationId = org
        ∧ e.result = none ∧ e.completedAt = none) ∧
      news.map (·.id)
        = (evaluateLoop org subj sid vars mutated freshId now ds evals k).1.filterMap
            (·.evaluationId) ∧
      news.length
        = ((evaluateLoop org subj sid vars mutated freshId now ds evals k).1.filter
            (·.ready)).length := by
  intro ds
  induction ds with
  | nil => exact fun evals k => ⟨[], by simp [evaluateLoop], by simp, by simp [evaluateLoop], by simp [evaluateLoop]⟩
  | cons d rest ih =>
    intro evals k
    by_cases hskip : skipCheck mutated d = true
    · obtain ⟨news, h1, h2, h3, h4⟩ := ih evals k
      refine ⟨news, ?_, h2, ?_, ?_⟩ <;>
        simp only [evaluateLoop, hskip, if_true] <;> assumption
    · simp only [evaluateLoop, hskip, if_false]
      by_cases hready : ((d.required.cardIds.filter
            (fun slug => isBlank (vget vars slug))).isEmpty
          && (d.required.deliverableIds.filter
            (fun dep => !completedExists evals dep sid)).isEmpty) = true
      · obtain ⟨news, h1, h2, h3, h4⟩ := ih
          (evals ++ [mkEvaluation (freshId k) d org subj sid mutated vars now]) (k + 1)
        refine ⟨mkEvaluation (freshId k) d org subj sid mutated vars now :: news,
          ?_, ?_, ?_, ?_⟩
        · simp only [hready, if_true]
          rw [h1, List.append_assoc]
          rfl
        · intro e he
          rcases List.mem_cons.mp he with rfl | he'
          · exact ⟨rfl, rfl, rfl, rfl, rfl, rfl⟩
          · exact h2 e he'
        · simp only [hready, if_true, List.map_cons, List.filterMap_cons]
          rw [h3]
          rfl
        · simp [hready, h4]
      · obtain ⟨news, h1, h2, h3, h4⟩ := ih evals k
        refine ⟨news, ?_, h2, ?_, ?_⟩
        · simp only [hready, if_false]
          exact h1
        · simp only [hready, if_false, List.filterMap_cons]
          exact h3
        · simp only [hready, if_false, List.filter_cons]
          exact h4

/-- The `unmetCardIds` computation (part_000:578-582). -/
def unmetCardsOf (vars : VarMap) (d : Deliverable) : List String :=
  d.required.cardIds.filter (fun slug => isBlank (vget vars slug))

/-- The `unmetDeliverableIds` computation (part_000:585-601). -/
def unmetDelsOf (evals : List Evaluation) (sid : String) (d : Deliverable) : List String :=
  d.required.deliverableIds.filter (fun dep => !completedExists evals dep sid)

/-- Pending insertions do not change the unmet-prerequisite set. -/
theorem unmetDelsOf_append_pending (evals news : List Evaluation) (sid : String)
    (d : Deliverable) (h : ∀ e ∈ news, e.status = .pending) :
    unmetDelsOf (evals ++ news) sid d = unmetDelsOf evals sid d := by
  unfold unmetDelsOf
  refine List.filter_congr ?_
  intro dep _
  rw [completedExists_append_pending evals news h]

/-- Each emitted outcome belongs to a non-skipped deliverable of the
processed list; its `ready` bit is the emptiness of the two unmet sets
computed against the evaluations table at entry, a ready outcome emits an
evaluation id and empty unmet sets, and a non-ready outcome emits no id
and exactly the missing card slugs and unsatisfied prerequisite ids. -/
theorem evaluateLoop_outcomes (org subj sid : String) (vars : VarMap)
    (mutated : Option (List String)) (freshId : Nat → String) (now : Nat) :
    ∀ ds evals k,
    ∀ o ∈ (evaluateLoop org subj sid vars mutated freshId now ds evals k).1,
    ∃ d, d ∈ ds ∧ o.deliverableId = d.id ∧ skipCheck mutated d = false ∧
      o.ready = ((unmetCardsOf vars d).isEmpty && (unmetDelsOf evals sid d).isEmpty) ∧
      (o.ready = true → o.evaluationId.isSome = true
        ∧ o.unmetCardIds = [] ∧ o.unmetDeliverableIds = []) ∧
      (o.ready = false → o.evaluationId = none
        ∧ o.unmetCardIds = unmetCardsOf vars d
        ∧ o.unmetDeliverableIds = unmetDelsOf evals sid d) := by
  intro ds
  induction ds with
  | nil =>
    intro evals k o ho
    simp [evaluateLoop] at ho
  | cons d rest ih =>
    intro evals k o ho
    by_cases hskip : skipCheck mutated d = true
    · rw [show evaluateLoop org subj sid vars mutated freshId now (d :: rest) evals k
          = evaluateLoop org subj sid vars mutated freshId now rest evals k by
        simp [evaluateLoop, hskip]] at ho
      obtain ⟨d', hd', rest'⟩ := ih evals k o ho
      exact ⟨d', List.mem_cons_of_mem d hd', rest'⟩
    · have hskip' : skipCheck mutated d = false := by
        cases h : skipCheck mutated d
        · rfl
        · exact absurd h hskip
      by_cases hready : ((unmetCardsOf vars d).isEmpty
          && (unmetDelsOf evals sid d).isEmpty) = true
      · rw [show evaluateLoop org subj sid vars mutated freshId now (d :: rest) evals k
            = ({ deliverableId := d.id, ready := true, unmetCardIds := [],
                 unmetDeliverableIds := [],
                 evaluationId := some (freshId k) } ::
               (evaluateLoop org subj sid vars mutated freshId now rest
                 (evals ++ [mkEvaluation (freshId k) d org subj sid mutated vars now])
                 (k + 1)).1,
               (evaluateLoop org subj sid vars mutated freshId now rest
                 (evals ++ [mkEvaluation (freshId k) d org subj sid mutated vars now])
                 (k + 1)).2) by
          simp only [evaluateLoop, hskip', Bool.false_eq_true, if_false]
          rw [if_pos (by exact hready)]
          rfl] at ho
        rcases List.mem_cons.mp ho with rfl | ho'
        · refine ⟨d, List.mem_cons_self d rest, rfl, hskip', ?_, ?_, ?_⟩
          · exact hready.symm
          · intro _
            exact ⟨rfl, rfl, rfl⟩
          · intro hcontra
            cases hcontra
        · obtain ⟨d', hd', hdid, hsk, hrdy, htrue, hfalse⟩ :=
            ih (evals ++ [mkEvaluation (freshId k) d org subj sid mutated vars now])
              (k + 1) o ho'
          have hpend : ∀ e ∈ [mkEvaluation (freshId k) d org subj sid mutated vars now],
              e.status = EStatus.pending := by
            intro e he
            rcases List.mem_singleton.mp he with rfl
            rfl
          rw [unmetDelsOf_append_pending evals _ sid d' hpend] at hrdy hfalse
          exact ⟨d', List.mem_cons_of_mem d hd', hdid, hsk, hrdy, htrue, hfalse⟩
      · rw [show evaluateLoop org subj sid vars mutated freshId now (d :: rest) evals k
            = ({ deliverableId := d.id, ready := false,
                 unmetCardIds := unmetCardsOf vars d,
                 unmetDeliverableIds := unmetDelsOf evals sid d,
                 evaluationId := none } ::
               (evaluateLoop org subj sid vars mutated freshId now rest evals k).1,
               (evaluateLoop org subj sid vars mutated freshId now rest evals k).2) by
          simp only [evaluateLoop, hskip', Bool.false_eq_true, if_false]
          rw [if_neg (by exact hready)]
          rfl] at ho
        rcases List.mem_cons.mp ho with rfl | ho'
        · refine ⟨d, List.mem_cons_self d rest, rfl, hskip', ?_, ?_, ?_⟩
          · cases h : ((unmetCardsOf vars d).isEmpty && (unmetDelsOf evals sid d).isEmpty)
            · rfl
            · exact absurd h hready
          · intro hcontra
            cases hcontra
          · intro _
            exact ⟨rfl, rfl, rfl⟩
        · obtain ⟨d', hd', rest'⟩ := ih evals k o ho'
          exact ⟨d', List.mem_cons_of_mem d hd', rest'⟩

/-- No missing card ↔ every required slug has a present value. -/
theorem unmetCardsOf_empty_iff (vars : VarMap) (d : Deliverable) :
    (unmetCardsOf vars d).isEmpty = true ↔
      ∀ slug ∈ d.required.cardIds, isBlank (vget vars slug) = false := by
  rw [List.isEmpty_iff]
  unfold unmetCardsOf
  rw [List.filter_eq_nil_iff]
  constructor
  · intro h slug hs
    have := h slug hs
    cases hb : isBlank (vget vars slug)
    · rfl
    · exact absurd hb this
  · intro h slug hs
    rw [h slug hs]
    simp

/-- No unmet prerequisite ↔ every required deliverable id has a stored
completed Evaluation for this subject. -/
theorem unmetDelsOf_empty_iff (evals : List Evaluation) (sid : String)
    (d : Deliverable) :
    (unmetDelsOf evals sid d).isEmpty = true ↔
      ∀ dep ∈ d.required.deliverableIds, ∃ e, e ∈ evals ∧
        e.deliverableId = dep ∧ e.context.subjectId = sid ∧
        e.status = .completed := by
  rw [List.isEmpty_iff]
  unfold unmetDelsOf
  rw [List.filter_eq_nil_iff]
  have hstep : ∀ dep, completedExists evals dep sid = true ↔
      ∃ e, e ∈ evals ∧ e.deliverableId = dep ∧ e.context.subjectId = sid ∧
        e.status = .completed := by
    intro dep
    unfold completedExists
    rw [List.any_eq_true]
    constructor
    · rintro ⟨e, he, hp⟩
      simp only [Bool.and_eq_true, beq_iff_eq] at hp
      exact ⟨e, he, hp.1.1, hp.1.2, hp.2⟩
    · rintro ⟨e, he, h1, h2, h3⟩
      refine ⟨e, he, ?_⟩
      simp [h1, h2, h3]
  constructor
  · intro h dep hdep
    have := h dep hdep
    rw [← hstep dep]
    cases hc : completedExists evals dep sid
    · exact absurd (by rw [hc]; rfl) this
    · rfl
  · intro h dep hdep
    have := (hstep dep).mpr (h dep hdep)
    simp [this]

/-- C1: every emitted outcome's `ready` flag is true iff every required
card slug maps to a present (non-undefined/null/empty) value in the
supplied variables and every required deliverable id has a stored
completed Evaluation for this subject id; outcomes come from active
Deliverables of this organization and subject kind. -/
theorem deliverableEvaluate_ready_iff (store : Store)
    (org subj sid : String) (vars : VarMap) (mutated : Option (List String))
    (freshId : Nat → String) (now : Nat) :
    ∀ o ∈ (deliverableEvaluate store org subj sid vars mutated freshId now).1,
    ∃ d, d ∈ store.deliverables ∧ d.status = .active ∧
      d.organizationId = org ∧ d.subject = subj ∧ o.deliverableId = d.id ∧
      (o.ready = true ↔
        (∀ slug ∈ d.required.cardIds, isBlank (vget vars slug) = false) ∧
        (∀ dep ∈ d.required.deliverableIds, ∃ e, e ∈ store.evaluations ∧
          e.deliverableId = dep ∧ e.context.subjectId = sid ∧
          e.status = .completed)) := by
  intro o ho
  obtain ⟨d, hd, hdid, _, hrdy, _, _⟩ :=
    evaluateLoop_outcomes org subj sid vars mutated freshId now
      (activeDeliverables store org subj) store.evaluations 0 o ho
  have hmem := List.mem_filter.mp hd
  have hpred := hmem.2
  simp only [Bool.and_eq_true, beq_iff_eq] at hpred
  refine ⟨d, hmem.1, hpred.2, hpred.1.1, hpred.1.2, hdid, ?_⟩
  rw [hrdy, Bool.and_eq_true, unmetCardsOf_empty_iff, unmetDelsOf_empty_iff]

/-- C2: the call leaves cards, procedures and deliverables untouched and
appends to the evaluations table exactly one new pending Evaluation per
ready outcome — carrying the subject context and the supplied variables,
its id emitted as `evaluationId` — while each non-ready outcome emits no
id and reports the missing card slugs and unsatisfied prerequisite ids. -/
theorem deliverableEvaluate_effects (store : Store)
    (org subj sid : String) (vars : VarMap) (mutated : Option (List String))
    (freshId : Nat → String) (now : Nat) :
    (deliverableEvaluate store org subj sid vars mutated freshId now).2.cards
      = store.cards ∧
    (deliverableEvaluate store org subj sid vars mutated freshId now).2.procedures
      = store.procedures ∧
    (deliverableEvaluate store org subj sid vars mutated freshId now).2.deliverables
      = store.deliverables ∧
    (∃ news,
      (deliverableEvaluate store org subj sid vars mutated freshId now).2.evaluations
        = store.evaluations ++ news ∧
      (∀ e ∈ news, e.status = .pending
        ∧ e.context = { subject := subj, subjectId := sid, mutated := mutated }
        ∧ e.«variables» = vars ∧ e.organizationId = org) ∧
      news.map (·.id)
        = (deliverableEvaluate store org subj sid vars mutated freshId now).1.filterMap
            (·.evaluationId) ∧
      news.length
        = ((deliverableEvaluate store org subj sid vars mutated freshId now).1.filter
            (·.ready)).length) ∧
    (∀ o ∈ (deliverableEvaluate store org subj sid vars mutated freshId now).1,
      (o.ready = true → o.evaluationId.isSome = true
        ∧ o.unmetCardIds = [] ∧ o.unmetDeliverableIds = []) ∧
      (o.ready = false → o.evaluationId = none ∧
        ∃ d, d ∈ store.deliverables ∧ o.deliverableId = d.id ∧
          o.unmetCardIds = unmetCardsOf vars d ∧
          o.unmetDeliverableIds = unmetDelsOf store.evaluations sid d)) := by
  obtain ⟨news, h1, h2, h3, h4⟩ :=
    evaluateLoop_insertions org subj sid vars mutated freshId now
      (activeDeliverables store org subj) store.evaluations 0
  refine ⟨rfl, rfl, rfl, ⟨news, h1, fun e he =>
    ⟨(h2 e he).1, (h2 e he).2.1, (h2 e he).2.2.1, (h2 e he).2.2.2.1⟩, h3, h4⟩,
    fun o ho => ?_⟩
  obtain ⟨d, hd, hdid, _, _, htrue, hfalse⟩ :=
    evaluateLoop_outcomes org subj sid vars mutated freshId now
      (activeDeliverables store org subj) store.evaluations 0 o ho
  exact ⟨htrue, fun hf => ⟨(hfalse hf).1,
    d, (List.mem_filter.mp hd).1, hdid, (hfalse hf).2.1, (hfalse hf).2.2⟩⟩

/-- Fixture deliverable: requires the `email` card, no prerequisites. -/
def d1 : Deliverable :=
  { id := "D1", organizationId := "O1", name := "Welcome",
    subject := "beneficiary",
    required := { cardIds := ["email"], deliverableIds := [] },
    schedule := none, status := .active, createdAt := 1, updatedAt := 1 }

/-- Store for the readiness witnesses. -/
def evalStore : Store :=
  { cards := [], procedures := [], deliverables := [d1], evaluations := [] }

/-- Supplied variables with a present email. -/
def goodVars : VarMap := [("email", .vStr "a@b.com")]

/-- Fresh-id source for the readiness witnesses. -/
def fid : Nat → String := fun _ => "ev1"

/-- First `evaluateDeliverables` call: email present. -/
def c1Call1 : List EvalOutcome × Store :=
  deliverableEvaluate evalStore "O1" "beneficiary" "b1" goodVars none fid 100

/-- Store after the first call. -/
def c1Store2 : Store := c1Call1.2

/-- Second call with empty variables. -/
def c1Call2 : List EvalOutcome × Store :=
  deliverableEvaluate c1Store2 "O1" "beneficiary" "b1" [] none fid 200

/-- The outcome emitted by the first call. -/
def c1Outcome : EvalOutcome :=
  { deliverableId := "D1", ready := true, unmetCardIds := [],
    unmetDeliverableIds := [], evaluationId := some "ev1" }

/-- Witness for C1 at the end-to-end fixture. -/
theorem deliverableEvaluate_ready_iff_witness :
    ∃ d, d ∈ evalStore.deliverables ∧ d.status = .active ∧
      d.organizationId = "O1" ∧ d.subject = "beneficiary" ∧
      c1Outcome.deliverableId = d.id ∧
      (c1Outcome.ready = true ↔
        (∀ slug ∈ d.required.cardIds, isBlank (vget goodVars slug) = false) ∧
        (∀ dep ∈ d.required.deliverableIds, ∃ e, e ∈ evalStore.evaluations ∧
          e.deliverableId = dep ∧ e.context.subjectId = "b1" ∧
          e.status = .completed)) :=
  deliverableEvaluate_ready_iff evalStore "O1" "beneficiary" "b1" goodVars
    none fid 100 c1Outcome (by decide)

/-- Witness for C2: the ready call appends exactly one pending
Evaluation; the repeat call with `{}` appends none and reports the
missing `email` slug. -/
theorem deliverableEvaluate_effects_witness :
    (∃ news, c1Call1.2.evaluations = evalStore.evaluations ++ news ∧
      news.length = 1 ∧ ∀ e ∈ news, e.status = .pending) ∧
    (∃ news, c1Call2.2.evaluations = c1Store2.evaluations ++ news ∧
      news.length = 0) ∧
    c1Call2.1 = [{ deliverableId := "D1", ready := false,
                   unmetCardIds := ["email"], unmetDeliverableIds := [],
                   evaluationId := none }] := by
  obtain ⟨-, -, -, ⟨news, heq, hpend, hids, hlen⟩, houts⟩ :=
    deliverableEvaluate_effects evalStore "O1" "beneficiary" "b1" goodVars
      none fid 100
  obtain ⟨-, -, -, ⟨news2, heq2, hpend2, hids2, hlen2⟩, -⟩ :=
    deliverableEvaluate_effects c1Store2 "O1" "beneficiary" "b1" [] none fid 200
  refine ⟨⟨news, heq, ?_, fun e he => (hpend e he).1⟩, ⟨news2, heq2, ?_⟩, by decide⟩
  · rw [hlen]
    rfl
  · rw [hlen2]
    rfl

/-! ## C3, C4: context aggregation -/

/-- Lookup across an object spread: the later object wins. -/
theorem vget_append (a b : VarMap) (k : String) :
    vget (a ++ b) k = (vget b k).or (vget a k) := by
  unfold vget
  rw [List.reverse_append, List.lookup_append]

/-- A pointwise-stronger filter keeps at most as many elements. -/
theorem length_filter_le_of_imp {α : Type} (l : List α) (p q : α → Bool)
    (h : ∀ a ∈ l, p a = true → q a = true) :
    (l.filter p).length ≤ (l.filter q).length := by
  induction l with
  | nil => exact Nat.le_refl _
  | cons a rest ih =>
    have hrest := ih (fun x hx => h x (List.mem_cons_of_mem a hx))
    by_cases hp : p a = true
    · rw [List.filter_cons_of_pos hp, List.filter_cons_of_pos (h a (List.mem_cons_self a rest) hp)]
      simpa using hrest
    · rw [List.filter_cons_of_neg hp]
      by_cases hq : q a = true
      · rw [List.filter_cons_of_pos hq]
        exact Nat.le_succ_of_le hrest
      · rw [List.filter_cons_of_neg hq]
        exact hrest

/-- A pointwise-stronger filter that loses a kept witness keeps strictly
fewer elements. -/
theorem length_filter_lt_of_witness {α : Type} (l : List α) (p q : α → Bool)
    (h : ∀ a ∈ l, p a = true → q a = true)
    (a : α) (ha : a ∈ l) (hqa : q a = true) (hpa : p a = false) :
    (l.filter p).length < (l.filter q).length := by
  induction l with
  | nil => cases ha
  | cons b rest ih =>
    have hrest : ∀ x ∈ rest, p x = true → q x = true :=
      fun x hx => h x (List.mem_cons_of_mem b hx)
    rcases List.mem_cons.mp ha with rfl | ha'
    · rw [List.filter_cons_of_neg (by rw [hpa]; exact Bool.false_ne_true),
        List.filter_cons_of_pos hqa]
      exact Nat.lt_succ_of_le (length_filter_le_of_imp rest p q hrest)
    · have hlt := ih hrest ha'
      by_cases hp : p b = true
      · rw [List.filter_cons_of_pos hp, List.filter_cons_of_pos (h b (List.mem_cons_self b rest) hp)]
        simpa using hlt
      · rw [List.filter_cons_of_neg hp]
        by_cases hq : q b = true
        · rw [List.filter_cons_of_pos hq]
          exact Nat.lt_succ_of_lt hlt
        · rw [List.filter_cons_of_neg hq]
          exact hlt

/-- Growing the visited set never increases the live-document count. -/
theorem liveCount_le (cfg : SubjectsConfig) (host : HostStore)
    (v₁ v₂ : List String) (h : ∀ k, k ∈ v₁ → k ∈ v₂) :
    liveCount cfg host v₂ ≤ liveCount cfg host v₁ := by
  unfold liveCount
  refine List.sum_le_sum ?_
  intro p _
  refine length_filter_le_of_imp _ _ _ ?_
  intro d _ hd
  cases hc : v₁.contains (keyOf p.1 d.id) with
  | false => rfl
  | true =>
    exfalso
    have h2 : keyOf p.1 d.id ∈ v₂ := h _ (List.elem_iff.mp hc)
    have h3 : v₂.contains (keyOf p.1 d.id) = true := List.elem_iff.mpr h2
    rw [h3] at hd
    simp at hd

/-- A successful `fetchSubjectDoc` decomposes into the config, table and
row lookups. -/
theorem fetchSubjectDoc_decomp (cfg : SubjectsConfig) (host : HostStore)
    (s i : String) (doc : SubjectDoc)
    (hd : fetchSubjectDoc cfg host s i = some doc) :
    ∃ sc docs, cfg.lookup s = some sc ∧
      host.tables.lookup sc.table = some docs ∧ doc ∈ docs ∧ doc.id = i := by
  unfold fetchSubjectDoc at hd
  split at hd
  · cases hd
  next sc hsc =>
    split at hd
    · cases hd
    next docs hdocs =>
      have hp := List.find?_some hd
      simp only [beq_iff_eq] at hp
      exact ⟨sc, docs, hsc, hdocs, List.mem_of_find?_eq_some hd, hp⟩

/-- Visiting the key of a fetched, unvisited document strictly decreases
the live-document count. -/
theorem liveCount_lt_of_fetch (cfg : SubjectsConfig) (host : HostStore)
    (s i : String) (doc : SubjectDoc) (visited : List String)
    (hd : fetchSubjectDoc cfg host s i = some doc)
    (hv : ¬ (keyOf s i) ∈ visited) :
    liveCount cfg host (keyOf s i :: visited) < liveCount cfg host visited := by
  obtain ⟨sc, docs, h1, h2, h3, h4⟩ := fetchSubjectDoc_decomp cfg host s i doc hd
  clear hd
  induction cfg with
  | nil => cases h1
  | cons entry rest ih =>
    obtain ⟨e1, e2⟩ := entry
    have hsplit : ∀ v, liveCount ((e1, e2) :: rest) host v
        = (((host.tables.lookup e2.table).getD []).filter
            (fun d => !v.contains (keyOf e1 d.id))).length
          + liveCount rest host v := by
      intro v
      unfold liveCount
      rw [List.map_cons, List.sum_cons]
    rw [hsplit, hsplit]
    simp only [List.lookup] at h1
    cases hbe : (s == e1) with
    | true =>
      rw [hbe] at h1
      simp only [Option.some.injEq] at h1
      rw [← h1] at h2
      have hes : s = e1 := beq_iff_eq.mp hbe
      subst hes
      have hhead : ((((host.tables.lookup e2.table).getD []).filter
            (fun d => !(keyOf s i :: visited).contains (keyOf s d.id))).length
          < (((host.tables.lookup e2.table).getD []).filter
            (fun d => !visited.contains (keyOf s d.id))).length) := by
        rw [h2]
        refine length_filter_lt_of_witness docs _ _ ?_ doc h3 ?_ ?_
        · intro d _ hp
          cases hc : visited.contains (keyOf s d.id) with
          | false => rfl
          | true =>
            exfalso
            have : (keyOf s i :: visited).contains (keyOf s d.id) = true :=
              List.elem_iff.mpr (List.mem_cons_of_mem _ (List.elem_iff.mp hc))
            rw [this] at hp
            simp at hp
        · rw [h4]
          cases hc : visited.contains (keyOf s i) with
          | false => rfl
          | true => exact absurd (List.elem_iff.mp hc) hv
        · rw [h4]
          have : (keyOf s i :: visited).contains (keyOf s i) = true :=
            List.elem_iff.mpr (List.mem_cons_self _ _)
          rw [this]
          rfl
      have htail : liveCount rest host (keyOf s i :: visited)
          ≤ liveCount rest host visited :=
        liveCount_le rest host visited (keyOf s i :: visited)
          (fun k hk => List.mem_cons_of_mem _ hk)
      exact Nat.add_lt_add_of_lt_of_le hhead htail
    | false =>
      rw [hbe] at h1
      have hhead : ((((host.tables.lookup e2.table).getD []).filter
            (fun d => !(keyOf s i :: visited).contains (keyOf e1 d.id))).length
          ≤ (((host.tables.lookup e2.table).getD []).filter
            (fun d => !visited.contains (keyOf e1 d.id))).length) := by
        refine length_filter_le_of_imp _ _ _ ?_
        intro d _ hp
        cases hc : visited.contains (keyOf e1 d.id) with
        | false => rfl
        | true =>
          exfalso
          have : (keyOf s i :: visited).contains (keyOf e1 d.id) = true :=
            List.elem_iff.mpr (List.mem_cons_of_mem _ (List.elem_iff.mp hc))
          rw [this] at hp
          simp at hp
      have htail : liveCount rest host (keyOf s i :: visited)
          < liveCount rest host visited := ih h1
      exact Nat.add_lt_add_of_le_of_lt hhead htail

/-- The parents loop only ever adds to the visited set. -/
theorem aggParents_visited_mono
    (next : String → String → List String → AggResult × List String)
    (hnext : ∀ s i v, ∀ k ∈ v, k ∈ (next s i v).2) :
    ∀ ps doc merged subjAcc visited, ∀ k ∈ visited,
      k ∈ (aggParents next ps doc merged subjAcc visited).2 := by
  intro ps
  induction ps with
  | nil => intro doc merged subjAcc visited k hk; exact hk
  | cons parent rest ih =>
    intro doc merged subjAcc visited k hk
    cases hf : doc.fields.lookup parent.field with
    | none =>
      simp only [aggParents, hf]
      exact ih doc merged subjAcc visited k hk
    | some pid =>
      by_cases hpid : pid = ""
      · simp only [aggParents, hf, hpid, if_pos]
        exact ih doc merged subjAcc visited k hk
      · simp only [aggParents, hf, if_neg hpid]
        exact ih doc _ _ _ k (hnext parent.subject pid visited k hk)

/-- `aggregateSubject` only ever adds to the visited set. -/
theorem aggregateF_visited_mono (cfg : SubjectsConfig) (host : HostStore) :
    ∀ fuel s i visited, ∀ k ∈ visited,
      k ∈ (aggregateF cfg host fuel s i visited).2 := by
  intro fuel
  induction fuel with
  | zero => intro s i visited k hk; exact hk
  | succ f ih =>
    intro s i visited k hk
    cases hc : visited.contains (keyOf s i) with
    | true =>
      simp only [aggregateF, hc, if_pos]
      exact hk
    | false =>
      simp only [aggregateF, hc, Bool.false_eq_true, if_false]
      cases hf : fetchSubjectDoc cfg host s i with
      | none =>
        simp only [hf]
        exact List.mem_cons_of_mem _ hk
      | some doc =>
        simp only [hf]
        exact aggParents_visited_mono _ ih _ doc [] [(s, doc)] _ k
          (List.mem_cons_of_mem _ hk)

/-- With enough fuel on both sides, the parents loop cannot tell the two
recursion depths apart. -/
theorem aggParents_fuel_congr (cfg : SubjectsConfig) (host : HostStore)
    (n m : Nat)
    (hcong : ∀ s i v, liveCount cfg host v < n → liveCount cfg host v < m →
      aggregateF cfg host n s i v = aggregateF cfg host m s i v) :
    ∀ ps doc merged subjAcc visited,
      liveCount cfg host visited < n → liveCount cfg host visited < m →
      aggParents (aggregateF cfg host n) ps doc merged subjAcc visited
        = aggParents (aggregateF cfg host m) ps doc merged subjAcc visited := by
  intro ps
  induction ps with
  | nil => intro doc merged subjAcc visited hn hm; rfl
  | cons parent rest ih =>
    intro doc merged subjAcc visited hn hm
    cases hf : doc.fields.lookup parent.field with
    | none =>
      simp only [aggParents, hf]
      exact ih doc merged subjAcc visited hn hm
    | some pid =>
      by_cases hpid : pid = ""
      · simp only [aggParents, hf, hpid, if_pos]
        exact ih doc merged subjAcc visited hn hm
      · simp only [aggParents, hf, if_neg hpid]
        have hr : aggregateF cfg host n parent.subject pid visited
            = aggregateF cfg host m parent.subject pid visited :=
          hcong parent.subject pid visited hn hm
        rw [← hr]
        have hsub : ∀ k ∈ visited,
            k ∈ (aggregateF cfg host n parent.subject pid visited).2 :=
          fun k hk => aggregateF_visited_mono cfg host n parent.subject pid visited k hk
        have hle := liveCount_le cfg host visited
          (aggregateF cfg host n parent.subject pid visited).2 hsub
        exact ih doc _ _ _ (Nat.lt_of_le_of_lt hle hn) (Nat.lt_of_le_of_lt hle hm)

/-- Fuel irrelevance: any recursion budget strictly above the number of
unvisited documents computes the same result — the source recursion depth
is bounded by the number of distinct `(kind, id)` pairs with documents. -/
theorem aggregateF_fuel_irrel (cfg : SubjectsConfig) (host : HostStore) :
    ∀ n m s i visited, liveCount cfg host visited < n →
      liveCount cfg host visited < m →
      aggregateF cfg host n s i visited = aggregateF cfg host m s i visited := by
  intro n
  induction n using Nat.strong_induction_on with
  | _ n IH =>
    intro m s i visited hn hm
    cases n with
    | zero => omega
    | succ n' =>
      cases m with
      | zero => omega
      | succ m' =>
        simp only [aggregateF]
        cases hc : visited.contains (keyOf s i) with
        | true => simp only [hc, if_pos]
        | false =>
          simp only [hc, Bool.false_eq_true, if_false]
          cases hf : fetchSubjectDoc cfg host s i with
          | none => simp only [hf]
          | some doc =>
            simp only [hf]
            have hnv : ¬ (keyOf s i) ∈ visited := by
              intro hmem
              have hcontains : visited.contains (keyOf s i) = true :=
                List.elem_iff.mpr hmem
              rw [hc] at hcontains
              cases hcontains
            have hlt := liveCount_lt_of_fetch cfg host s i doc visited hf hnv
            have hcong : ∀ s' i' v, liveCount cfg host v < n' →
                liveCount cfg host v < m' →
                aggregateF cfg host n' s' i' v = aggregateF cfg host m' s' i' v :=
              fun s' i' v h1 h2 => IH n' (Nat.lt_succ_self n') m' s' i' v h1 h2
            have := aggParents_fuel_congr cfg host n' m' hcong
              (getParents cfg s) doc [] [(s, doc)] (keyOf s i :: visited)
              (by omega) (by omega)
            rw [this]

/-- C4: `aggregateSubject` terminates on every parent graph — any fuel
strictly above the number of unvisited documents (the distinct reachable
`(kind, id)` pairs) yields the canonical finite result, and re-encountering
a visited key immediately returns `{variables: {}, subjects: {}}` without
expanding anything. -/
theorem aggregateSubject_terminates (cfg : SubjectsConfig) (host : HostStore)
    (s i : String) (fuel : Nat) (h : liveCount cfg host [] < fuel) :
    (aggregateF cfg host fuel s i []).1 = aggregateSubject cfg host s i ∧
    (∀ s' i' visited, (keyOf s' i') ∈ visited →
      aggregateF cfg host fuel s' i' visited = (AggResult.empty, visited)) := by
  constructor
  · unfold aggregateSubject
    rw [aggregateF_fuel_irrel cfg host fuel (liveCount cfg host [] + 1) s i []
      h (Nat.lt_succ_self _)]
  · intro s' i' visited hmem
    cases fuel with
    | zero => omega
    | succ f =>
      have hcontains : visited.contains (keyOf s' i') = true :=
        List.elem_iff.mpr hmem
      simp only [aggregateF, hcontains, if_pos]

/-- The cyclic configuration `A → B → A`. -/
def cycCfg : SubjectsConfig :=
  [("A", { table := "ta", parents := some [{ field := "p", subject := "B" }] }),
   ("B", { table := "tb", parents := some [{ field := "q", subject := "A" }] })]

/-- Host documents for the cycle: `a1` points to `b1` which points back. -/
def cycHost : HostStore :=
  { tables :=
      [("ta", [{ id := "a1", attributes := [("x", .vStr "1")],
                 fields := [("p", "b1")] }]),
       ("tb", [{ id := "b1", attributes := [("y", .vStr "2")],
                 fields := [("q", "a1")] }])] }

/-- Witness for C4: on the `A→B→A` cycle, generous fuel agrees with the
canonical bound and the traversal yields the finite merged result that
visits each `(kind, id)` once. -/
theorem aggregateSubject_terminates_witness :
    (aggregateF cycCfg cycHost 10 "A" "a1" []).1
      = aggregateSubject cycCfg cycHost "A" "a1" ∧
    (aggregateSubject cycCfg cycHost "A" "a1").«variables»
      = [("y", .vStr "2"), ("x", .vStr "1")] := by
  have h := aggregateSubject_terminates cycCfg cycHost "A" "a1" 10 (by decide)
  exact ⟨h.1, rfl⟩

/-- Subject document for the C3 fixtures: no own attributes, two parent
pointer fields. -/
def sDoc : SubjectDoc :=
  { id := "s1", attributes := [], fields := [("p1", "a1"), ("p2", "b1")] }

/-- First parent document: defines `email` and points to the second
parent as its own ancestor. -/
def p1Doc : SubjectDoc :=
  { id := "a1", attributes := [("email", .vStr "fromP1")],
    fields := [("pp", "b1")] }

/-- Second parent document: also defines `email`. -/
def p2Doc : SubjectDoc :=
  { id := "b1", attributes := [("email", .vStr "fromP2")], fields := [] }

/-- Configuration where the later-declared parent `P2` is also an
ancestor of the earlier parent `P1`. -/
def cexCfg : SubjectsConfig :=
  [("S", { table := "ts", parents := some [{ field := "p1", subject := "P1" },
                                           { field := "p2", subject := "P2" }] }),
   ("P1", { table := "t1", parents := some [{ field := "pp", subject := "P2" }] }),
   ("P2", { table := "t2", parents := none })]

/-- Host store for the shared-ancestor counterexample. -/
def cexHost : HostStore :=
  { tables := [("ts", [sDoc]), ("t1", [p1Doc]), ("t2", [p2Doc])] }

/-- C3 counterexample: both parents define `email`, yet the merged value
is the EARLIER parent's — the later-declared parent `P2` was already
visited while traversing `P1`'s ancestors, so its recursive aggregation
returns empty and contributes nothing. -/
theorem aggregate_later_parent_overridden_cex :
    vget (extractVariables p1Doc) "email" = some (.vStr "fromP1") ∧
    vget (extractVariables p2Doc) "email" = some (.vStr "fromP2") ∧
    vget (aggregateSubject cexCfg cexHost "S" "s1").«variables» "email"
      = some (.vStr "fromP1") ∧
    "fromP1" ≠ "fromP2" :=
  ⟨rfl, rfl, rfl, by decide⟩

/-- Independent-parents configuration: `P1` and `P2` share no ancestors. -/
def indepCfg : SubjectsConfig :=
  [("S", { table := "ts", parents := some [{ field := "p1", subject := "P1" },
                                           { field := "p2", subject := "P2" }] }),
   ("P1", { table := "t1", parents := none }),
   ("P2", { table := "t2", parents := none })]

/-- First parent document without further ancestors. -/
def q1Doc : SubjectDoc :=
  { id := "a1", attributes := [("email", .vStr "fromP1")], fields := [] }

/-- Host store for the independent-parents fixture. -/
def indepHost : HostStore :=
  { tables := [("ts", [sDoc]), ("t1", [q1Doc]), ("t2", [p2Doc])] }

/-- The parents loop's accumulators factor out: running the loop from any
accumulated state yields the initial accumulators followed by the
contributions gathered from scratch, and the returned visited set does
not depend on the accumulators. -/
theorem aggParents_factor
    (next : String → String → List String → AggResult × List String) :
    ∀ ps doc merged subjAcc visited,
      (aggParents next ps doc merged subjAcc visited).1.«variables»
        = merged ++ (aggParents next ps doc [] [] visited).1.«variables» ∧
      (aggParents next ps doc merged subjAcc visited).1.subjects
        = subjAcc ++ (aggParents next ps doc [] [] visited).1.subjects ∧
      (aggParents next ps doc merged subjAcc visited).2
        = (aggParents next ps doc [] [] visited).2 := by
  intro ps
  induction ps with
  | nil =>
    intro doc merged subjAcc visited
    exact ⟨(List.append_nil merged).symm, (List.append_nil subjAcc).symm, rfl⟩
  | cons parent rest ih =>
    intro doc merged subjAcc visited
    cases hf : doc.fields.lookup parent.field with
    | none =>
      simp only [aggParents, hf]
      exact ih doc merged subjAcc visited
    | some pid =>
      by_cases hpid : pid = ""
      · simp only [aggParents, hf, hpid, if_pos]
        exact ih doc merged subjAcc visited
      · simp only [aggParents, hf, if_neg hpid, List.nil_append]
        obtain ⟨hv1, hs1, ht1⟩ := ih doc
          (merged ++ (next parent.subject pid visited).1.«variables»)
          (subjAcc ++ (next parent.subject pid visited).1.subjects)
          (next parent.subject pid visited).2
        obtain ⟨hv2, hs2, ht2⟩ := ih doc
          ((next parent.subject pid visited).1.«variables»)
          ((next parent.subject pid visited).1.subjects)
          (next parent.subject pid visited).2
        refine ⟨?_, ?_, ?_⟩
        · rw [hv1, hv2, List.append_assoc]
        · rw [hs1, hs2, List.append_assoc]
        · rw [ht1, ht2]

/-- C3 amended: the variable map of an expanded subject is the
declared-order concatenation of its parents' recursive contributions with
the subject's own variables overlaid last.  Hence (i) a slug defined by
the subject's own document always takes the subject's own value; (ii) for
every slug and every parent list, the lookup prefers the later-declared
parents' contributions over an earlier parent's, falling back to the
earlier contribution only where the later ones return no binding; and
(iii) a parent whose `(kind, id)` key is already in the shared visited
set — e.g. visited while traversing an earlier parent's ancestors —
aggregates to the empty result and so contributes nothing, leaving the
earlier parent's value in place. -/
theorem aggregate_merge_precedence (cfg : SubjectsConfig) (host : HostStore)
    (fuel : Nat) (s i : String) (visited : List String) (doc : SubjectDoc)
    (hv : visited.contains (keyOf s i) = false)
    (hd : fetchSubjectDoc cfg host s i = some doc) :
    (aggregateF cfg host (fuel + 1) s i visited).1.«variables»
      = (aggParents (aggregateF cfg host fuel) (getParents cfg s) doc [] []
          (keyOf s i :: visited)).1.«variables» ++ extractVariables doc ∧
    (∀ slug v, vget (extractVariables doc) slug = some v →
      vget ((aggregateF cfg host (fuel + 1) s i visited).1.«variables») slug
        = some v) ∧
    (∀ (next : String → String → List String → AggResult × List String)
       (p : ParentRelation) (rest : List ParentRelation) (doc' : SubjectDoc)
       (v' : List String) (pid slug : String),
      doc'.fields.lookup p.field = some pid → pid ≠ "" →
      vget ((aggParents next (p :: rest) doc' [] [] v').1.«variables») slug
        = (vget ((aggParents next rest doc' [] []
            (next p.subject pid v').2).1.«variables») slug).or
          (vget ((next p.subject pid v').1.«variables») slug)) ∧
    (∀ (f : Nat) (s' i' : String) (v' : List String), (keyOf s' i') ∈ v' →
      aggregateF cfg host (f + 1) s' i' v' = (AggResult.empty, v')) := by
  have hdecomp : (aggregateF cfg host (fuel + 1) s i visited).1.«variables»
      = (aggParents (aggregateF cfg host fuel) (getParents cfg s) doc [] []
          (keyOf s i :: visited)).1.«variables» ++ extractVariables doc := by
    simp only [aggregateF, hv, Bool.false_eq_true, if_false, hd]
    rw [(aggParents_factor (aggregateF cfg host fuel) (getParents cfg s) doc
      [] [(s, doc)] (keyOf s i :: visited)).1, List.nil_append]
  refine ⟨hdecomp, ?_, ?_, ?_⟩
  · intro slug v hown
    rw [hdecomp, vget_append, hown]
    rfl
  · intro next p rest doc' v' pid slug hlookup hpid
    simp only [aggParents, hlookup, if_neg hpid, List.nil_append]
    rw [(aggParents_factor next rest doc'
      ((next p.subject pid v').1.«variables»)
      ((next p.subject pid v').1.subjects) (next p.subject pid v').2).1,
      vget_append]
  · intro f s' i' v' hmem
    have hcontains : v'.contains (keyOf s' i') = true := List.elem_iff.mpr hmem
    simp only [aggregateF, hcontains, if_pos]

/-- Witness for the amended C3: self-override lands `fromP1` when
aggregating `P1` itself; the later-parent-precedence clause applied to the
independent-parents fixture resolves `email` to `fromP2`; and the
pre-visited second parent of the shared-ancestor fixture aggregates to the
empty result. -/
theorem aggregate_merge_precedence_witness :
    vget ((aggregateF cexCfg cexHost 3 "P1" "a1" []).1.«variables») "email"
      = some (.vStr "fromP1") ∧
    vget ((aggParents (aggregateF indepCfg indepHost 3)
        [{ field := "p1", subject := "P1" }, { field := "p2", subject := "P2" }]
        sDoc [] [] [keyOf "S" "s1"]).1.«variables») "email"
      = some (.vStr "fromP2") ∧
    aggregateF cexCfg cexHost 3 "P2" "b1" [keyOf "P2" "b1"]
      = (AggResult.empty, [keyOf "P2" "b1"]) := by
  have h1 := aggregate_merge_precedence cexCfg cexHost 2 "P1" "a1" [] p1Doc
    rfl rfl
  have h2 := aggregate_merge_precedence indepCfg indepHost 3 "S" "s1" [] sDoc
    rfl rfl
  refine ⟨h1.2.1 "email" (.vStr "fromP1") rfl, ?_,
    h1.2.2.2 2 "P2" "b1" [keyOf "P2" "b1"] (List.mem_singleton.mpr rfl)⟩
  have hstep := h2.2.2.1 (aggregateF indepCfg indepHost 3)
    { field := "p1", subject := "P1" } [{ field := "p2", subject := "P2" }]
    sDoc [keyOf "S" "s1"] "a1" "email" rfl (by decide)
  rw [hstep]
  rfl

end Bridge
